import Mathlib

/-!
Verification development for the city-selection module (`src/city_selector.py`).

The module has two numeric procedures:
* `select_dispersed_cities` — a greedy farthest-point (max-min) selector over a
  catalog of city records, seeded from the most populous record;
* `post_process_city_selection` — an iterative local-repair loop that replaces
  members of too-close pairs with better-separated pool candidates.

The embedding below mirrors the Python line by line.  Catalog rows carry an
`id` (the pandas row label of the record in the original catalog), rational
coordinates in degrees and a rational population.  Distance computation is kept
as an explicit parameter `d : City → City → α` over a linear ordered field so
that the combinatorial structure of both procedures is stated once and then
instantiated with the module's haversine metric `havDist` (over `ℝ`, radius
6371 km), exactly as the source hardcodes it.  Notable faithfully-modelled
details of the source:
* the coordinate matrix `coords_rad` is built BEFORE `sort_values('population')`
  reorders `valid_cities`, while the returned records are taken with `iloc`
  from the sorted frame (`greedySelection` keeps both orders);
* the repair loop seeds `selected_indices` with the reset positional labels
  `0..k-1` of the selection, but tests pool rows against it by their original
  catalog labels (`searchSet`);
* `selected_indices.remove(...)` raises `KeyError` when the label is absent,
  `iloc` raises `IndexError` on an out-of-range position; both surface as
  `Except.error`;
* the `while improvements_made` loop has no iteration bound in the source; it
  is embedded with an explicit fuel counter, `outOfFuel` marking runs that
  would iterate beyond the given bound, so every `Except.ok` result is a
  faithful terminating run of the Python loop.
-/

open Real

namespace CitySel

/-- A catalog row as handed to `select_dispersed_cities`: the `lat`/`lng`
columns exist but individual values may be missing (NaN in pandas). -/
structure RawCity where
  id : ℕ
  latOpt : Option ℚ
  lngOpt : Option ℚ
  pop : ℚ
deriving DecidableEq, Repr

/-- A record with valid coordinates, as used after `dropna(subset=['lat','lng'])`.
`id` is the row label the record has in the original catalog frame. -/
structure City where
  id : ℕ
  lat : ℚ
  lng : ℚ
  pop : ℚ
deriving DecidableEq, Repr

instance : Inhabited City := ⟨⟨0, 0, 0, 0⟩⟩

/-- One row of `dropna(subset=['lat','lng'])`: kept iff both coordinates are present. -/
def dropnaRow (r : RawCity) : Option City :=
  match r.latOpt, r.lngOpt with
  | some la, some lo => some ⟨r.id, la, lo, r.pop⟩
  | _, _ => none

/-- `valid_cities = cities_df.dropna(subset=['lat','lng'])`, in catalog row order. -/
def validCities (rows : List RawCity) : List City := rows.filterMap dropnaRow

/-- Insertion step of the descending-population sort. -/
def insertPopDesc (c : City) : List City → List City
  | [] => [c]
  | x :: xs => if x.pop < c.pop then c :: x :: xs else x :: insertPopDesc c xs

/-- `valid_cities.sort_values('population', ascending=False)`. -/
def sortPopDesc : List City → List City
  | [] => []
  | x :: xs => insertPopDesc x (sortPopDesc xs)

variable {α : Type} [LinearOrderedField α]

/-- `np.min` over a nonempty array (`0` on the empty list, never hit by the code). -/
def listMin : List α → α
  | [] => 0
  | x :: xs => xs.foldl min x

/-- `np.max` over a nonempty array (`0` on the empty list, never hit by the code). -/
def listMax : List α → α
  | [] => 0
  | x :: xs => xs.foldl max x

/-- `np.argmax`: index of the first occurrence of the maximal entry. -/
def argmaxList : List α → ℕ
  | [] => 0
  | [_] => 0
  | v :: vs => if listMax vs ≤ v then 0 else argmaxList vs + 1

/-- Minimum distance from candidate position `j` of the coordinate array to the
positions in `selected` — the candidate's isolation score in the greedy loop. -/
def isolationScore (d : City → City → α) (coords : List City) (selected : List ℕ)
    (j : ℕ) : α :=
  listMin (selected.map (fun k => d (coords.getD j default) (coords.getD k default)))

/-- The `min_distances` list built in each greedy round: `-1` for positions
already selected, otherwise the isolation score. -/
def minDistances (d : City → City → α) (coords : List City) (selected : List ℕ) :
    List α :=
  (List.range coords.length).map (fun j =>
    if j ∈ selected then (-1 : α) else isolationScore d coords selected j)

/-- The greedy index loop after `k` rounds: `selected_indices = [0]`, then each
round appends `np.argmax(min_distances)`.  The coordinate array `coords` is the
PRE-SORT `valid_cities` order — exactly as in the source, where `coords_rad`
is computed before the population sort. -/
def greedyIndicesIter (d : City → City → α) (coords : List City) : ℕ → List ℕ
  | 0 => [0]
  | k + 1 =>
    let sel := greedyIndicesIter d coords k
    sel ++ [argmaxList (minDistances d coords sel)]

/-- Exceptions the Python can raise, plus exhaustion of the loop-fuel bound. -/
inductive PipeError where
  | ilocOutOfRange
  | keyError
  | outOfFuel
deriving DecidableEq, Repr

/-- The greedy phase of `select_dispersed_cities`: dropna, reduce the target if
the pool is small, run the greedy index loop over pre-sort coordinates, and
take the resulting positions from the population-sorted frame with `iloc`
(raising `IndexError` when a position is out of range). -/
def greedySelection (d : City → City → α) (rows : List RawCity) (n : ℕ) :
    Except PipeError (List City) :=
  let valid := validCities rows
  let nEff := if valid.length < n then valid.length else n
  let sorted := sortPopDesc valid
  let idxs := greedyIndicesIter d valid (nEff - 1)
  if ∀ i ∈ idxs, i < sorted.length then
    Except.ok (idxs.map (fun i => sorted.getD i default))
  else Except.error PipeError.ilocOutOfRange

/-- Mutable state of the repair loop: `improved_cities` (whose row labels are
the reset positions `0..k-1`) and the ad hoc label set `selected_indices`. -/
structure RepairState where
  improved : List City
  selectedIdx : List ℕ
deriving DecidableEq, Repr

/-- Enumeration order of the closest-pair scan: `i` over row positions, `j`
over later row positions (`i >= j` skipped). -/
def pairList (k : ℕ) : List (ℕ × ℕ) :=
  (List.range k).flatMap (fun i =>
    ((List.range k).filter (fun j => i < j)).map (fun j => (i, j)))

/-- One step of the closest-pair fold: keep the incumbent unless the new pair
is strictly closer (so ties keep the first pair found). -/
def pairStep (d : City → City → α) (sel : List City) (acc : Option (ℕ × ℕ × α))
    (pq : ℕ × ℕ) : Option (ℕ × ℕ × α) :=
  let dist := d (sel.getD pq.1 default) (sel.getD pq.2 default)
  match acc with
  | none => some (pq.1, pq.2, dist)
  | some (i, j, m) => if dist < m then some (pq.1, pq.2, dist) else some (i, j, m)

/-- The closest-pair scan over the current selection: `none` iff there is no
pair (fewer than two members), mirroring `closest_pair is None`. -/
def closestPair (d : City → City → α) (sel : List City) : Option (ℕ × ℕ × α) :=
  (pairList sel.length).foldl (pairStep d sel) none

/-- The minimum pairwise distance within a selection, when a pair exists. -/
def minPairwise (d : City → City → α) (sel : List City) : Option α :=
  (closestPair d sel).map (fun t => t.2.2)

/-- `replace_idx = closest_pair[0] if city1_pop < city2_pop else closest_pair[1]`. -/
def removalTarget (ci cj : City) (i j : ℕ) : ℕ :=
  if ci.pop < cj.pop then i else j

/-- A candidate's minimum distance to every selection member except the removal
target (skipped by its row label, i.e. its position). -/
def candMinDist (d : City → City → α) (improved : List City) (ridx : ℕ)
    (c : City) : α :=
  listMin (((List.range improved.length).filter (fun p => p ≠ ridx)).map
    (fun p => d c (improved.getD p default)))

/-- The candidates the replacement search actually iterates over: pool rows
whose CATALOG label is not in the `selected_indices` set (which the loop seeded
with the selection's reset positional labels `0..k-1`). -/
def searchSet (pool : List City) (selectedIdx : List ℕ) : List City :=
  pool.filter (fun c => c.id ∉ selectedIdx)

/-- The replacement search fold: start from `(None, 0)` and update whenever a
candidate's minimum distance strictly exceeds the incumbent `max_min_distance`. -/
def bestReplGo (d : City → City → α) (improved : List City) (ridx : ℕ) :
    List City → Option City × α → Option City × α
  | [], acc => acc
  | c :: cs, (best, mm) =>
    let md := candMinDist d improved ridx c
    if mm < md then bestReplGo d improved ridx cs (some c, md)
    else bestReplGo d improved ridx cs (best, mm)

/-- `best_replacement` and `max_min_distance` after scanning all candidates. -/
def bestRepl (d : City → City → α) (improved : List City) (ridx : ℕ)
    (cands : List City) : Option City × α :=
  bestReplGo d improved ridx cands (none, 0)

/-- `selected_indices.remove(x)`: `KeyError` when `x` is not in the set. -/
def setRemove (s : List ℕ) (x : ℕ) : Except PipeError (List ℕ) :=
  if x ∈ s then Except.ok (s.erase x) else Except.error PipeError.keyError

/-- `selected_indices.add(x)`. -/
def setAdd (s : List ℕ) (x : ℕ) : List ℕ :=
  if x ∈ s then s else s ++ [x]

/-- Outcome of one iteration of the `while improvements_made` body: continue
with a new state, or exit the loop returning the current selection. -/
inductive StepOut where
  | cont (s : RepairState)
  | done (sel : List City)
deriving DecidableEq, Repr

/-- One iteration of the repair loop body: scan for the closest pair; if it is
closer than `min_distance_km`, pick the removal target by population, search
the candidate set for the best replacement, and commit it only when
`max_min_distance > min_dist`; in every other case the loop exits with the
selection unchanged. -/
def repairStep (d : City → City → α) (pool : List City) (th : α)
    (s : RepairState) : Except PipeError StepOut :=
  match closestPair d s.improved with
  | some (i, j, m) =>
    if m < th then
      let ci := s.improved.getD i default
      let cj := s.improved.getD j default
      let ridx := removalTarget ci cj i j
      let br := bestRepl d s.improved ridx (searchSet pool s.selectedIdx)
      match br.1 with
      | some b =>
        if m < br.2 then
          match setRemove s.selectedIdx ridx with
          | Except.ok s2 =>
            Except.ok (StepOut.cont ⟨s.improved.set ridx b, setAdd s2 b.id⟩)
          | Except.error e => Except.error e
        else Except.ok (StepOut.done s.improved)
      | none => Except.ok (StepOut.done s.improved)
    else Except.ok (StepOut.done s.improved)
  | none => Except.ok (StepOut.done s.improved)

/-- The `while improvements_made` loop with an explicit fuel bound. -/
def repairLoop (d : City → City → α) (pool : List City) (th : α) :
    ℕ → RepairState → Except PipeError (List City)
  | 0, _ => Except.error PipeError.outOfFuel
  | fuel + 1, s =>
    match repairStep d pool th s with
    | Except.error e => Except.error e
    | Except.ok (StepOut.done sel) => Except.ok sel
    | Except.ok (StepOut.cont s2) => repairLoop d pool th fuel s2

/-- `post_process_city_selection(selected_cities, all_cities, min_distance_km)`:
seeds `selected_indices = set(improved_cities.index)`, which after the
pipeline's `reset_index(drop=True)` is the positional label set `0..k-1`. -/
def post_process_city_selection (d : City → City → α) (fuel : ℕ)
    (selection pool : List City) (th : α) : Except PipeError (List City) :=
  repairLoop d pool th fuel ⟨selection, List.range selection.length⟩

/-- `select_dispersed_cities(cities_df, n_cities, min_distance_km)`: the greedy
phase followed by post-processing against the population-sorted valid pool. -/
def select_dispersed_cities (d : City → City → α) (fuel : ℕ)
    (rows : List RawCity) (n : ℕ) (th : α) : Except PipeError (List City) :=
  match greedySelection d rows n with
  | Except.error e => Except.error e
  | Except.ok sel =>
    post_process_city_selection d fuel sel (sortPopDesc (validCities rows)) th

/-- `math.atan2`, with the branch structure of the C library function
(`atan2(0, 0) = 0`). -/
noncomputable def atan2 (y x : ℝ) : ℝ :=
  if 0 < x then arctan (y / x)
  else if x < 0 then
    (if 0 ≤ y then arctan (y / x) + π else arctan (y / x) - π)
  else if 0 < y then π / 2
  else if y < 0 then -(π / 2)
  else 0

/-- `math.radians`: degrees to radians. -/
noncomputable def radiansDeg (x : ℝ) : ℝ := x * π / 180

/-- The `haversine_distance` helper defined inside `post_process_city_selection`:
great-circle distance in kilometers with Earth radius 6371.0 km. -/
noncomputable def haversine_distance (lat1 lon1 lat2 lon2 : ℝ) : ℝ :=
  let rlat1 := radiansDeg lat1
  let rlon1 := radiansDeg lon1
  let rlat2 := radiansDeg lat2
  let rlon2 := radiansDeg lon2
  let dlat := rlat2 - rlat1
  let dlon := rlon2 - rlon1
  let a := sin (dlat / 2) ^ 2 + cos rlat1 * cos rlat2 * sin (dlon / 2) ^ 2
  let c := 2 * atan2 (sqrt a) (sqrt (1 - a))
  6371 * c

/-- The module's distance metric on records (the greedy phase computes the same
great-circle quantity via `sklearn.metrics.pairwise.haversine_distances` on
radian coordinates scaled by 6371.0). -/
noncomputable def havDist (a b : City) : ℝ :=
  haversine_distance (a.lat : ℝ) (a.lng : ℝ) (b.lat : ℝ) (b.lng : ℝ)

/-- A toy executable metric on records, used to instantiate the generic
theorems on concrete kernel-evaluable inputs: records with `id ≥ 5` are far
(50 km) from every other record, the rest are mutually close (1 km). -/
def stepMetric (a b : City) : ℚ :=
  if a.id = b.id then 0
  else if 5 ≤ a.id ∨ 5 ≤ b.id then 50
  else 1

instance {ε σ : Type} [DecidableEq ε] [DecidableEq σ] : DecidableEq (Except ε σ) :=
  fun a b =>
    match a, b with
    | Except.ok x, Except.ok y =>
      if h : x = y then Decidable.isTrue (by rw [h])
      else Decidable.isFalse (fun he => h (by cases he; rfl))
    | Except.ok _, Except.error _ => Decidable.isFalse (fun he => Except.noConfusion he)
    | Except.error _, Except.ok _ => Decidable.isFalse (fun he => Except.noConfusion he)
    | Except.error x, Except.error y =>
      if h : x = y then Decidable.isTrue (by rw [h])
      else Decidable.isFalse (fun he => h (by cases he; rfl))

end CitySel

namespace CitySel

variable {α : Type} [LinearOrderedField α]

theorem foldl_min_le_init (l : List α) (a : α) : l.foldl min a ≤ a := by
  induction l generalizing a with
  | nil => simp
  | cons x xs ih => exact le_trans (ih (min a x)) (min_le_left a x)

theorem foldl_min_le_mem {l : List α} {x : α} (h : x ∈ l) (a : α) :
    l.foldl min a ≤ x := by
  induction l generalizing a with
  | nil => cases h
  | cons y ys ih =>
    rcases List.mem_cons.mp h with rfl | hy
    · exact le_trans (foldl_min_le_init ys (min a x)) (min_le_right a x)
    · exact ih hy (min a y)

theorem foldl_min_mem (l : List α) (a : α) :
    l.foldl min a = a ∨ l.foldl min a ∈ l := by
  induction l generalizing a with
  | nil => left; rfl
  | cons x xs ih =>
    rw [List.foldl_cons]
    rcases ih (min a x) with h | h
    · rcases min_choice a x with h2 | h2
      · left; rw [h, h2]
      · right; rw [h, h2]; exact List.mem_cons_self x xs
    · right; exact List.mem_cons_of_mem x h

theorem listMin_le {l : List α} {x : α} (h : x ∈ l) : listMin l ≤ x := by
  cases l with
  | nil => cases h
  | cons y ys =>
    rcases List.mem_cons.mp h with rfl | hy
    · exact foldl_min_le_init ys x
    · exact foldl_min_le_mem hy y

theorem listMin_mem {l : List α} (h : l ≠ []) : listMin l ∈ l := by
  cases l with
  | nil => exact absurd rfl h
  | cons y ys =>
    rcases foldl_min_mem ys y with h2 | h2
    · rw [listMin, h2]; exact List.mem_cons_self y ys
    · exact List.mem_cons_of_mem y h2

theorem listMin_nonneg {l : List α} (h : l ≠ []) (hall : ∀ x ∈ l, 0 ≤ x) :
    0 ≤ listMin l :=
  hall _ (listMin_mem h)

theorem le_foldl_max_init (l : List α) (a : α) : a ≤ l.foldl max a := by
  induction l generalizing a with
  | nil => simp
  | cons x xs ih => exact le_trans (le_max_left a x) (ih (max a x))

theorem le_foldl_max_mem {l : List α} {x : α} (h : x ∈ l) (a : α) :
    x ≤ l.foldl max a := by
  induction l generalizing a with
  | nil => cases h
  | cons y ys ih =>
    rcases List.mem_cons.mp h with rfl | hy
    · exact le_trans (le_max_right a x) (le_foldl_max_init ys (max a x))
    · exact ih hy (max a y)

theorem foldl_max_mem (l : List α) (a : α) :
    l.foldl max a = a ∨ l.foldl max a ∈ l := by
  induction l generalizing a with
  | nil => left; rfl
  | cons x xs ih =>
    rw [List.foldl_cons]
    rcases ih (max a x) with h | h
    · rcases max_choice a x with h2 | h2
      · left; rw [h, h2]
      · right; rw [h, h2]; exact List.mem_cons_self x xs
    · right; exact List.mem_cons_of_mem x h

theorem le_listMax {l : List α} {x : α} (h : x ∈ l) : x ≤ listMax l := by
  cases l with
  | nil => cases h
  | cons y ys =>
    rcases List.mem_cons.mp h with rfl | hy
    · exact le_foldl_max_init ys x
    · exact le_foldl_max_mem hy y

theorem foldl_max_pull (l : List α) : ∀ a b : α,
    l.foldl max (max a b) = max a (l.foldl max b) := by
  induction l with
  | nil => intro a b; rfl
  | cons x xs ih =>
    intro a b
    rw [List.foldl_cons, List.foldl_cons, max_assoc, ih]

theorem listMax_cons (v : α) (rest : List α) (h : rest ≠ []) :
    listMax (v :: rest) = max v (listMax rest) := by
  cases rest with
  | nil => exact absurd rfl h
  | cons w ws =>
    show (w :: ws).foldl max v = max v (ws.foldl max w)
    rw [List.foldl_cons]
    exact foldl_max_pull ws v w

theorem getD_mem {β : Type} {l : List β} {k : ℕ} (h : k < l.length) (dflt : β) :
    l.getD k dflt ∈ l := by
  induction l generalizing k with
  | nil => simp at h
  | cons x xs ih =>
    cases k with
    | zero => simp
    | succ k =>
      rw [List.getD_cons_succ]
      exact List.mem_cons_of_mem x (ih (by simpa using h))

theorem argmaxList_pair (v w : α) (ws : List α) :
    argmaxList (v :: w :: ws) =
      if listMax (w :: ws) ≤ v then 0 else argmaxList (w :: ws) + 1 := rfl

theorem argmaxList_lt_length {l : List α} (h : l ≠ []) :
    argmaxList l < l.length := by
  induction l with
  | nil => exact absurd rfl h
  | cons v vs ih =>
    cases vs with
    | nil => simp [argmaxList]
    | cons w ws =>
      rw [argmaxList_pair]
      by_cases hc : listMax (w :: ws) ≤ v
      · simp [hc]
      · rw [if_neg hc]
        have := ih (by simp)
        simpa [Nat.succ_lt_succ_iff] using this

theorem argmaxList_getD {l : List α} (h : l ≠ []) :
    l.getD (argmaxList l) 0 = listMax l := by
  induction l with
  | nil => exact absurd rfl h
  | cons v vs ih =>
    cases vs with
    | nil => simp [argmaxList, listMax]
    | cons w ws =>
      rw [argmaxList_pair, listMax_cons v (w :: ws) (by simp)]
      by_cases hc : listMax (w :: ws) ≤ v
      · rw [if_pos hc, List.getD_cons_zero, max_eq_left hc]
      · rw [if_neg hc, List.getD_cons_succ, ih (by simp),
          max_eq_right (le_of_lt (not_le.mp hc))]

theorem argmaxList_le {l : List α} {k : ℕ} (h : k < l.length) :
    l.getD k 0 ≤ l.getD (argmaxList l) 0 := by
  have hne : l ≠ [] := by
    intro he; rw [he] at h; simp at h
  rw [argmaxList_getD hne]
  exact le_listMax (getD_mem h 0)

theorem argmaxList_first {l : List α} : ∀ k < argmaxList l,
    l.getD k 0 < l.getD (argmaxList l) 0 := by
  induction l with
  | nil => intro k hk; simp [argmaxList] at hk
  | cons v vs ih =>
    cases vs with
    | nil => intro k hk; simp [argmaxList] at hk
    | cons w ws =>
      intro k hk
      rw [argmaxList_pair] at hk
      by_cases hc : listMax (w :: ws) ≤ v
      · rw [if_pos hc] at hk; exact absurd hk (Nat.not_lt_zero k)
      · rw [if_neg hc] at hk
        rw [argmaxList_pair, if_neg hc]
        cases k with
        | zero =>
          rw [List.getD_cons_zero, List.getD_cons_succ,
            argmaxList_getD (by simp : (w :: ws) ≠ [])]
          exact not_le.mp hc
        | succ k =>
          rw [List.getD_cons_succ, List.getD_cons_succ]
          exact ih k (Nat.lt_of_succ_lt_succ hk)

end CitySel

namespace CitySel

theorem arctan_nonneg_of_nonneg {t : ℝ} (ht : 0 ≤ t) : 0 ≤ arctan t := by
  have h := Real.arctan_strictMono.monotone ht
  simpa [Real.arctan_zero] using h

theorem atan2_nonneg {y x : ℝ} (hy : 0 ≤ y) (hx : 0 ≤ x) : 0 ≤ atan2 y x := by
  unfold atan2
  by_cases h1 : 0 < x
  · rw [if_pos h1]
    exact arctan_nonneg_of_nonneg (div_nonneg hy h1.le)
  · rw [if_neg h1, if_neg (not_lt.mpr hx)]
    by_cases h2 : 0 < y
    · rw [if_pos h2]
      linarith [Real.pi_pos]
    · rw [if_neg h2, if_neg (not_lt.mpr hy)]

theorem atan2_zero_one : atan2 0 1 = 0 := by
  unfold atan2
  rw [if_pos one_pos]
  norm_num [Real.arctan_zero]

theorem atan2_sin_cos {θ : ℝ} (h0 : 0 ≤ θ) (h2 : θ ≤ π / 2) :
    atan2 (sin θ) (cos θ) = θ := by
  rcases lt_or_eq_of_le h2 with hlt | heq
  · have hcos : 0 < cos θ :=
      Real.cos_pos_of_mem_Ioo ⟨by linarith [Real.pi_pos], hlt⟩
    unfold atan2
    rw [if_pos hcos, ← Real.tan_eq_sin_div_cos,
      Real.arctan_tan (by linarith [Real.pi_pos]) hlt]
  · rw [heq, Real.sin_pi_div_two, Real.cos_pi_div_two]
    unfold atan2
    norm_num

theorem radiansDeg_zero : radiansDeg 0 = 0 := by unfold radiansDeg; ring

theorem hav_core_nonneg (a : ℝ) :
    0 ≤ 6371 * (2 * atan2 (Real.sqrt a) (Real.sqrt (1 - a))) := by
  have h := atan2_nonneg (Real.sqrt_nonneg a) (Real.sqrt_nonneg (1 - a))
  linarith

theorem haversine_nonneg (la1 lo1 la2 lo2 : ℝ) :
    0 ≤ haversine_distance la1 lo1 la2 lo2 := by
  simp only [haversine_distance]
  exact hav_core_nonneg _

theorem haversine_symm (la1 lo1 la2 lo2 : ℝ) :
    haversine_distance la1 lo1 la2 lo2 = haversine_distance la2 lo2 la1 lo1 := by
  simp only [haversine_distance]
  have hs : ∀ u v : ℝ, sin ((u - v) / 2) ^ 2 = sin ((v - u) / 2) ^ 2 := fun u v => by
    rw [show (u - v) / 2 = -((v - u) / 2) by ring, Real.sin_neg, neg_sq]
  rw [hs (radiansDeg la2) (radiansDeg la1), hs (radiansDeg lo2) (radiansDeg lo1),
    mul_comm (cos (radiansDeg la1)) (cos (radiansDeg la2))]

theorem haversine_self (la lo : ℝ) : haversine_distance la lo la lo = 0 := by
  simp [haversine_distance, atan2_zero_one]

theorem haversine_equator (l1 l2 : ℝ) (hle : l1 ≤ l2) (hspan : l2 - l1 ≤ 180) :
    haversine_distance 0 l1 0 l2 = 6371 * ((l2 - l1) * π / 180) := by
  simp only [haversine_distance]
  have hd : radiansDeg l2 - radiansDeg l1 = 2 * ((l2 - l1) * π / 360) := by
    unfold radiansDeg; ring
  rw [hd, sub_self, radiansDeg_zero]
  rw [show (2 : ℝ) * ((l2 - l1) * π / 360) / 2 = (l2 - l1) * π / 360 by ring]
  set θ : ℝ := (l2 - l1) * π / 360 with hθ
  have hθ0 : 0 ≤ θ := by
    rw [hθ]
    have h1 : 0 ≤ l2 - l1 := by linarith
    positivity
  have hθπ : θ ≤ π / 2 := by
    rw [hθ]
    have h1 := mul_le_mul_of_nonneg_right hspan Real.pi_pos.le
    linarith
  have hsin : 0 ≤ sin θ :=
    Real.sin_nonneg_of_nonneg_of_le_pi hθ0 (by linarith [Real.pi_pos])
  have hcos : 0 ≤ cos θ :=
    Real.cos_nonneg_of_mem_Icc ⟨by linarith [Real.pi_pos], hθπ⟩
  have ha : (0:ℝ) / 2 = 0 := by norm_num
  rw [ha, Real.sin_zero, Real.cos_zero]
  rw [show (0:ℝ) ^ 2 + 1 * 1 * sin θ ^ 2 = sin θ ^ 2 by ring]
  have h1s : 1 - sin θ ^ 2 = cos θ ^ 2 := by
    have := Real.sin_sq_add_cos_sq θ
    linarith
  rw [h1s, Real.sqrt_sq hsin, Real.sqrt_sq hcos, atan2_sin_cos hθ0 hθπ]
  rw [hθ]; ring

theorem hav_00_90 : haversine_distance 0 0 0 90 = 6371 * (π / 2) := by
  rw [haversine_equator 0 90 (by norm_num) (by norm_num)]; ring

theorem hav_00_180 : haversine_distance 0 0 0 180 = 6371 * π := by
  rw [haversine_equator 0 180 (by norm_num) (by norm_num)]; ring

theorem hav_90_180 : haversine_distance 0 90 0 180 = 6371 * (π / 2) := by
  rw [haversine_equator 90 180 (by norm_num) (by norm_num)]; ring

theorem hav_antimeridian : haversine_distance 0 (-180) 0 180 = 0 := by
  simp only [haversine_distance]
  have h2 : radiansDeg 180 - radiansDeg (-180) = 2 * π := by
    unfold radiansDeg; ring
  rw [h2, sub_self, show (2 * π) / 2 = π by ring]
  simp [Real.sin_pi, atan2_zero_one]

theorem havDist_mk (i j : ℕ) (x1 y1 x2 y2 p q : ℚ) :
    havDist ⟨i, x1, y1, p⟩ ⟨j, x2, y2, q⟩ =
      haversine_distance (x1 : ℝ) (y1 : ℝ) (x2 : ℝ) (y2 : ℝ) := rfl

theorem havDist_self (c : City) : havDist c c = 0 := haversine_self _ _

theorem havDist_nonneg (a b : City) : 0 ≤ havDist a b := haversine_nonneg _ _ _ _

theorem havDist_symm (a b : City) : havDist a b = havDist b a := haversine_symm _ _ _ _

end CitySel

namespace CitySel

variable {α : Type} [LinearOrderedField α]

theorem pairList_mem {k p q : ℕ} : (p, q) ∈ pairList k ↔ p < q ∧ q < k := by
  constructor
  · intro h
    simp only [pairList, List.mem_flatMap, List.mem_map, List.mem_filter,
      List.mem_range, decide_eq_true_eq] at h
    obtain ⟨i, _, j, ⟨hj, hij⟩, he⟩ := h
    injection he with h1 h2
    subst h1; subst h2
    exact ⟨hij, hj⟩
  · rintro ⟨hpq, hqk⟩
    simp only [pairList, List.mem_flatMap, List.mem_map, List.mem_filter,
      List.mem_range, decide_eq_true_eq]
    exact ⟨p, lt_trans hpq hqk, q, ⟨hqk, hpq⟩, rfl⟩

end CitySel

namespace CitySel

variable {α : Type} [LinearOrderedField α]

theorem pairStep_none (d : City → City → α) (sel : List City) (pq : ℕ × ℕ) :
    pairStep d sel none pq =
      some (pq.1, pq.2, d (sel.getD pq.1 default) (sel.getD pq.2 default)) := rfl

theorem pairStep_some (d : City → City → α) (sel : List City) (pq : ℕ × ℕ)
    (i j : ℕ) (m : α) :
    pairStep d sel (some (i, j, m)) pq =
      if d (sel.getD pq.1 default) (sel.getD pq.2 default) < m then
        some (pq.1, pq.2, d (sel.getD pq.1 default) (sel.getD pq.2 default))
      else some (i, j, m) := rfl

theorem pairFold_spec {d : City → City → α} {sel : List City} :
    ∀ (L : List (ℕ × ℕ)) (acc : Option (ℕ × ℕ × α)) (i j : ℕ) (m : α),
      L.foldl (pairStep d sel) acc = some (i, j, m) →
      (∀ pq ∈ L, m ≤ d (sel.getD pq.1 default) (sel.getD pq.2 default)) ∧
      (acc = some (i, j, m) ∨
        ∃ L1 L2, L = L1 ++ (i, j) :: L2 ∧
          m = d (sel.getD i default) (sel.getD j default) ∧
          (∀ pq ∈ L1, m < d (sel.getD pq.1 default) (sel.getD pq.2 default)) ∧
          (∀ p0 q0 m0, acc = some (p0, q0, m0) → m < m0)) := by
  intro L
  induction L with
  | nil =>
    intro acc i j m h
    refine ⟨by simp, Or.inl ?_⟩
    simpa using h
  | cons pq L ih =>
    rcases pq with ⟨a, b⟩
    intro acc i j m h
    rw [List.foldl_cons] at h
    rcases acc with _ | ⟨⟨p0, q0, m0⟩⟩
    · rw [pairStep_none] at h
      obtain ⟨h1, h2⟩ := ih _ i j m h
      rcases h2 with heq | ⟨L1, L2, hsplit, hm, hL1, hstrict⟩
      · simp only [Option.some.injEq, Prod.mk.injEq] at heq
        obtain ⟨rfl, rfl, rfl⟩ := heq
        refine ⟨?_, Or.inr ⟨[], L, by simp, rfl, by simp, by simp⟩⟩
        intro x hx
        rcases List.mem_cons.mp hx with rfl | hxL
        · exact le_refl _
        · exact h1 x hxL
      · have hlt := hstrict a b _ rfl
        refine ⟨?_, Or.inr ⟨(a, b) :: L1, L2, by simp [hsplit], hm, ?_, by simp⟩⟩
        · intro x hx
          rcases List.mem_cons.mp hx with rfl | hxL
          · exact le_of_lt hlt
          · exact h1 x hxL
        · intro x hx
          rcases List.mem_cons.mp hx with rfl | hxL
          · exact hlt
          · exact hL1 x hxL
    · rw [pairStep_some] at h
      by_cases hlt : d (sel.getD a default) (sel.getD b default) < m0
      · rw [if_pos hlt] at h
        obtain ⟨h1, h2⟩ := ih _ i j m h
        rcases h2 with heq | ⟨L1, L2, hsplit, hm, hL1, hstrict⟩
        · simp only [Option.some.injEq, Prod.mk.injEq] at heq
          obtain ⟨rfl, rfl, rfl⟩ := heq
          refine ⟨?_, Or.inr ⟨[], L, by simp, rfl, by simp, ?_⟩⟩
          · intro x hx
            rcases List.mem_cons.mp hx with rfl | hxL
            · exact le_refl _
            · exact h1 x hxL
          · intro p1 q1 m1 hacc
            simp only [Option.some.injEq, Prod.mk.injEq] at hacc
            obtain ⟨_, _, rfl⟩ := hacc
            exact hlt
        · have hlt2 := hstrict a b _ rfl
          refine ⟨?_, Or.inr ⟨(a, b) :: L1, L2, by simp [hsplit], hm, ?_, ?_⟩⟩
          · intro x hx
            rcases List.mem_cons.mp hx with rfl | hxL
            · exact le_of_lt hlt2
            · exact h1 x hxL
          · intro x hx
            rcases List.mem_cons.mp hx with rfl | hxL
            · exact hlt2
            · exact hL1 x hxL
          · intro p1 q1 m1 hacc
            simp only [Option.some.injEq, Prod.mk.injEq] at hacc
            obtain ⟨_, _, rfl⟩ := hacc
            exact lt_trans hlt2 hlt
      · rw [if_neg hlt] at h
        obtain ⟨h1, h2⟩ := ih _ i j m h
        rcases h2 with heq | ⟨L1, L2, hsplit, hm, hL1, hstrict⟩
        · refine ⟨?_, Or.inl heq⟩
          simp only [Option.some.injEq, Prod.mk.injEq] at heq
          obtain ⟨rfl, rfl, rfl⟩ := heq
          intro x hx
          rcases List.mem_cons.mp hx with rfl | hxL
          · exact not_lt.mp hlt
          · exact h1 x hxL
        · have hm0 := hstrict p0 q0 m0 rfl
          refine ⟨?_, Or.inr ⟨(a, b) :: L1, L2, by simp [hsplit], hm, ?_, ?_⟩⟩
          · intro x hx
            rcases List.mem_cons.mp hx with rfl | hxL
            · exact le_of_lt (lt_of_lt_of_le hm0 (not_lt.mp hlt))
            · exact h1 x hxL
          · intro x hx
            rcases List.mem_cons.mp hx with rfl | hxL
            · exact lt_of_lt_of_le hm0 (not_lt.mp hlt)
            · exact hL1 x hxL
          · intro p1 q1 m1 hacc
            simp only [Option.some.injEq, Prod.mk.injEq] at hacc
            obtain ⟨_, _, rfl⟩ := hacc
            exact hm0

end CitySel

namespace CitySel

variable {α : Type} [LinearOrderedField α]

theorem closestPair_spec {d : City → City → α} {sel : List City} {i j : ℕ} {m : α}
    (h : closestPair d sel = some (i, j, m)) :
    i < j ∧ j < sel.length ∧ m = d (sel.getD i default) (sel.getD j default) ∧
      ∀ p q, p < q → q < sel.length →
        m ≤ d (sel.getD p default) (sel.getD q default) := by
  obtain ⟨h1, h2⟩ := pairFold_spec (pairList sel.length) none i j m h
  rcases h2 with heq | ⟨L1, L2, hsplit, hm, _, _⟩
  · exact absurd heq (by simp)
  · have hmem : (i, j) ∈ pairList sel.length := by rw [hsplit]; simp
    obtain ⟨hij, hjk⟩ := pairList_mem.mp hmem
    exact ⟨hij, hjk, hm, fun p q hpq hqk => h1 (p, q) (pairList_mem.mpr ⟨hpq, hqk⟩)⟩

theorem closestPair_first {d : City → City → α} {sel : List City} {i j : ℕ} {m : α}
    (h : closestPair d sel = some (i, j, m)) :
    ∃ L1 L2, pairList sel.length = L1 ++ (i, j) :: L2 ∧
      ∀ pq ∈ L1, m < d (sel.getD pq.1 default) (sel.getD pq.2 default) := by
  obtain ⟨_, h2⟩ := pairFold_spec (pairList sel.length) none i j m h
  rcases h2 with heq | ⟨L1, L2, hsplit, _, hL1, _⟩
  · exact absurd heq (by simp)
  · exact ⟨L1, L2, hsplit, hL1⟩

theorem bestReplGo_cons (d : City → City → α) (improved : List City) (ridx : ℕ)
    (c : City) (cs : List City) (best : Option City) (mm : α) :
    bestReplGo d improved ridx (c :: cs) (best, mm) =
      if mm < candMinDist d improved ridx c then
        bestReplGo d improved ridx cs (some c, candMinDist d improved ridx c)
      else bestReplGo d improved ridx cs (best, mm) := rfl

theorem bestReplGo_le (d : City → City → α) (improved : List City) (ridx : ℕ) :
    ∀ (cs : List City) (best : Option City) (mm : α),
      mm ≤ (bestReplGo d improved ridx cs (best, mm)).2 ∧
      ∀ c ∈ cs, candMinDist d improved ridx c ≤
        (bestReplGo d improved ridx cs (best, mm)).2 := by
  intro cs
  induction cs with
  | nil => intro best mm; exact ⟨le_refl _, by simp⟩
  | cons c cs ih =>
    intro best mm
    rw [bestReplGo_cons]
    by_cases hlt : mm < candMinDist d improved ridx c
    · rw [if_pos hlt]
      obtain ⟨ha, hb⟩ := ih (some c) (candMinDist d improved ridx c)
      refine ⟨le_trans (le_of_lt hlt) ha, ?_⟩
      intro x hx
      rcases List.mem_cons.mp hx with rfl | hxc
      · exact ha
      · exact hb x hxc
    · rw [if_neg hlt]
      obtain ⟨ha, hb⟩ := ih best mm
      refine ⟨ha, ?_⟩
      intro x hx
      rcases List.mem_cons.mp hx with rfl | hxc
      · exact le_trans (not_lt.mp hlt) ha
      · exact hb x hxc

theorem bestReplGo_cases (d : City → City → α) (improved : List City) (ridx : ℕ) :
    ∀ (cs : List City) (best : Option City) (mm : α),
      bestReplGo d improved ridx cs (best, mm) = (best, mm) ∨
      ∃ c ∈ cs, (bestReplGo d improved ridx cs (best, mm)).1 = some c ∧
        (bestReplGo d improved ridx cs (best, mm)).2 = candMinDist d improved ridx c ∧
        mm < (bestReplGo d improved ridx cs (best, mm)).2 := by
  intro cs
  induction cs with
  | nil => intro best mm; exact Or.inl rfl
  | cons c cs ih =>
    intro best mm
    by_cases hlt : mm < candMinDist d improved ridx c
    · simp only [bestReplGo_cons, if_pos hlt]
      rcases ih (some c) (candMinDist d improved ridx c) with heq |
        ⟨c', hc', h1, h2, h3⟩
      · right
        refine ⟨c, List.mem_cons_self c cs, ?_, ?_, ?_⟩
        · rw [heq]
        · rw [heq]
        · rw [heq]; exact hlt
      · right
        exact ⟨c', List.mem_cons_of_mem c hc', h1, h2, lt_trans hlt h3⟩
    · simp only [bestReplGo_cons, if_neg hlt]
      rcases ih best mm with heq | ⟨c', hc', h1, h2, h3⟩
      · exact Or.inl heq
      · exact Or.inr ⟨c', List.mem_cons_of_mem c hc', h1, h2, h3⟩

theorem bestRepl_some {d : City → City → α} {improved : List City} {ridx : ℕ}
    {cands : List City} {b : City} {mm : α}
    (h : bestRepl d improved ridx cands = (some b, mm)) :
    b ∈ cands ∧ mm = candMinDist d improved ridx b ∧ 0 < mm := by
  rcases bestReplGo_cases d improved ridx cands none (0 : α) with heq | ⟨c, hcmem, h1, h2, h3⟩
  · rw [bestRepl, heq] at h
    exact absurd h (by simp)
  · rw [bestRepl] at h
    rw [h] at h1 h2 h3
    simp only [Option.some.injEq] at h1
    subst h1
    exact ⟨hcmem, h2, h3⟩

theorem bestRepl_none {d : City → City → α} {improved : List City} {ridx : ℕ}
    {cands : List City} {mm : α}
    (h : bestRepl d improved ridx cands = (none, mm)) :
    mm = 0 ∧ ∀ c ∈ cands, candMinDist d improved ridx c ≤ 0 := by
  have hle := (bestReplGo_le d improved ridx cands none (0 : α)).2
  rcases bestReplGo_cases d improved ridx cands none (0 : α) with heq | ⟨c, _, h1, _, _⟩
  · rw [bestRepl] at h
    rw [heq] at h hle
    have h2 : mm = 0 := by
      have h3 := congrArg Prod.snd h
      simpa using h3.symm
    refine ⟨h2, ?_⟩
    intro c hc
    simpa using hle c hc
  · rw [bestRepl] at h
    rw [h] at h1
    exact absurd h1 (by simp)

end CitySel

namespace CitySel

variable {α : Type} [LinearOrderedField α]

theorem repairStep_none_cp {d : City → City → α} {pool : List City} {th : α}
    {s : RepairState} (hcp : closestPair d s.improved = none) :
    repairStep d pool th s = Except.ok (StepOut.done s.improved) := by
  unfold repairStep
  rw [hcp]

theorem repairStep_conv {d : City → City → α} {pool : List City} {th : α}
    {s : RepairState} {i j : ℕ} {m : α}
    (hcp : closestPair d s.improved = some (i, j, m)) (hge : ¬ m < th) :
    repairStep d pool th s = Except.ok (StepOut.done s.improved) := by
  unfold repairStep
  rw [hcp]
  simp only [if_neg hge]

theorem repairStep_stall_nobest {d : City → City → α} {pool : List City} {th : α}
    {s : RepairState} {i j : ℕ} {m mm : α}
    (hcp : closestPair d s.improved = some (i, j, m)) (hlt : m < th)
    (hbr : bestRepl d s.improved
      (removalTarget (s.improved.getD i default) (s.improved.getD j default) i j)
      (searchSet pool s.selectedIdx) = (none, mm)) :
    repairStep d pool th s = Except.ok (StepOut.done s.improved) := by
  unfold repairStep
  rw [hcp]
  simp only [if_pos hlt, hbr]

theorem repairStep_stall_score {d : City → City → α} {pool : List City} {th : α}
    {s : RepairState} {i j : ℕ} {m mm : α} {b : City}
    (hcp : closestPair d s.improved = some (i, j, m)) (hlt : m < th)
    (hbr : bestRepl d s.improved
      (removalTarget (s.improved.getD i default) (s.improved.getD j default) i j)
      (searchSet pool s.selectedIdx) = (some b, mm)) (hmm : ¬ m < mm) :
    repairStep d pool th s = Except.ok (StepOut.done s.improved) := by
  unfold repairStep
  rw [hcp]
  simp only [if_pos hlt, hbr, if_neg hmm]

theorem repairStep_commit {d : City → City → α} {pool : List City} {th : α}
    {s : RepairState} {i j : ℕ} {m mm : α} {b : City}
    (hcp : closestPair d s.improved = some (i, j, m)) (hlt : m < th)
    (hbr : bestRepl d s.improved
      (removalTarget (s.improved.getD i default) (s.improved.getD j default) i j)
      (searchSet pool s.selectedIdx) = (some b, mm)) (hmm : m < mm)
    (hrm : removalTarget (s.improved.getD i default) (s.improved.getD j default) i j
      ∈ s.selectedIdx) :
    repairStep d pool th s = Except.ok (StepOut.cont
      ⟨s.improved.set
        (removalTarget (s.improved.getD i default) (s.improved.getD j default) i j) b,
       setAdd (s.selectedIdx.erase
        (removalTarget (s.improved.getD i default) (s.improved.getD j default) i j))
        b.id⟩) := by
  unfold repairStep
  rw [hcp]
  simp only [if_pos hlt, hbr, if_pos hmm, setRemove, if_pos hrm]

theorem repairStep_commit_keyerr {d : City → City → α} {pool : List City} {th : α}
    {s : RepairState} {i j : ℕ} {m mm : α} {b : City}
    (hcp : closestPair d s.improved = some (i, j, m)) (hlt : m < th)
    (hbr : bestRepl d s.improved
      (removalTarget (s.improved.getD i default) (s.improved.getD j default) i j)
      (searchSet pool s.selectedIdx) = (some b, mm)) (hmm : m < mm)
    (hrm : removalTarget (s.improved.getD i default) (s.improved.getD j default) i j
      ∉ s.selectedIdx) :
    repairStep d pool th s = Except.error PipeError.keyError := by
  unfold repairStep
  rw [hcp]
  simp only [if_pos hlt, hbr, if_pos hmm, setRemove, if_neg hrm]

theorem repairStep_done_eq {d : City → City → α} {pool : List City} {th : α}
    {s : RepairState} {out : List City}
    (h : repairStep d pool th s = Except.ok (StepOut.done out)) :
    out = s.improved := by
  rcases hcp : closestPair d s.improved with _ | ⟨⟨i, j, m⟩⟩
  · rw [repairStep_none_cp hcp] at h
    simpa using h.symm
  · by_cases hlt : m < th
    · rcases hbr : bestRepl d s.improved
        (removalTarget (s.improved.getD i default) (s.improved.getD j default) i j)
        (searchSet pool s.selectedIdx) with ⟨bo, mm⟩
      cases bo with
      | none =>
        rw [repairStep_stall_nobest hcp hlt hbr] at h
        simpa using h.symm
      | some b =>
        by_cases hmm : m < mm
        · by_cases hrm : removalTarget (s.improved.getD i default)
            (s.improved.getD j default) i j ∈ s.selectedIdx
          · rw [repairStep_commit hcp hlt hbr hmm hrm] at h
            simp at h
          · rw [repairStep_commit_keyerr hcp hlt hbr hmm hrm] at h
            simp at h
        · rw [repairStep_stall_score hcp hlt hbr hmm] at h
          simpa using h.symm
    · rw [repairStep_conv hcp hlt] at h
      simpa using h.symm

theorem repairStep_cont_inv {d : City → City → α} {pool : List City} {th : α}
    {s s' : RepairState}
    (h : repairStep d pool th s = Except.ok (StepOut.cont s')) :
    ∃ i j m b mm,
      closestPair d s.improved = some (i, j, m) ∧ m < th ∧
      bestRepl d s.improved
        (removalTarget (s.improved.getD i default) (s.improved.getD j default) i j)
        (searchSet pool s.selectedIdx) = (some b, mm) ∧ m < mm ∧
      removalTarget (s.improved.getD i default) (s.improved.getD j default) i j
        ∈ s.selectedIdx ∧
      s' = ⟨s.improved.set
        (removalTarget (s.improved.getD i default) (s.improved.getD j default) i j) b,
        setAdd (s.selectedIdx.erase
          (removalTarget (s.improved.getD i default) (s.improved.getD j default) i j))
          b.id⟩ := by
  rcases hcp : closestPair d s.improved with _ | ⟨⟨i, j, m⟩⟩
  · rw [repairStep_none_cp hcp] at h
    simp at h
  · by_cases hlt : m < th
    · rcases hbr : bestRepl d s.improved
        (removalTarget (s.improved.getD i default) (s.improved.getD j default) i j)
        (searchSet pool s.selectedIdx) with ⟨bo, mm⟩
      cases bo with
      | none =>
        rw [repairStep_stall_nobest hcp hlt hbr] at h
        simp at h
      | some b =>
        by_cases hmm : m < mm
        · by_cases hrm : removalTarget (s.improved.getD i default)
            (s.improved.getD j default) i j ∈ s.selectedIdx
          · rw [repairStep_commit hcp hlt hbr hmm hrm] at h
            simp only [Except.ok.injEq] at h
            refine ⟨i, j, m, b, mm, rfl, hlt, hbr, hmm, hrm, ?_⟩
            cases h
            rfl
          · rw [repairStep_commit_keyerr hcp hlt hbr hmm hrm] at h
            simp at h
        · rw [repairStep_stall_score hcp hlt hbr hmm] at h
          simp at h
    · rw [repairStep_conv hcp hlt] at h
      simp at h

theorem repairLoop_succ (d : City → City → α) (pool : List City) (th : α)
    (fuel : ℕ) (s : RepairState) :
    repairLoop d pool th (fuel + 1) s =
      match repairStep d pool th s with
      | Except.error e => Except.error e
      | Except.ok (StepOut.done sel) => Except.ok sel
      | Except.ok (StepOut.cont s2) => repairLoop d pool th fuel s2 := rfl

theorem repairLoop_inv (d : City → City → α) (pool : List City) (th : α)
    (P : RepairState → Prop)
    (hstep : ∀ s s2, P s → repairStep d pool th s = Except.ok (StepOut.cont s2) → P s2) :
    ∀ (fuel : ℕ) (s : RepairState) (l : List City), P s →
      repairLoop d pool th fuel s = Except.ok l → ∃ s2, P s2 ∧ l = s2.improved := by
  intro fuel
  induction fuel with
  | zero =>
    intro s l _ h
    exact absurd h (by simp [repairLoop])
  | succ fuel ih =>
    intro s l hP h
    rw [repairLoop_succ] at h
    rcases hst : repairStep d pool th s with e | st
    · rw [hst] at h
      simp at h
    · rcases st with s2 | sel
      · rw [hst] at h
        exact ih s2 l (hstep s s2 hP hst) h
      · rw [hst] at h
        simp only [Except.ok.injEq] at h
        refine ⟨s, hP, ?_⟩
        rw [← h]
        exact repairStep_done_eq hst

end CitySel

namespace CitySel

variable {α : Type} [LinearOrderedField α]

theorem greedyIter_length (d : City → City → α) (coords : List City) (k : ℕ) :
    (greedyIndicesIter d coords k).length = k + 1 := by
  induction k with
  | zero => rfl
  | succ k ih => simp [greedyIndicesIter, ih]

theorem greedyIter_ne_nil (d : City → City → α) (coords : List City) (k : ℕ) :
    greedyIndicesIter d coords k ≠ [] := by
  intro h
  have h1 := greedyIter_length d coords k
  rw [h] at h1
  simp at h1

theorem minDistances_length (d : City → City → α) (coords : List City)
    (sel : List ℕ) : (minDistances d coords sel).length = coords.length := by
  simp [minDistances]

theorem minDistances_getD {d : City → City → α} {coords : List City}
    {sel : List ℕ} {j : ℕ} (h : j < coords.length) :
    (minDistances d coords sel).getD j 0 =
      if j ∈ sel then (-1 : α) else isolationScore d coords sel j := by
  unfold minDistances
  have hlen : j < ((List.range coords.length).map (fun j =>
      if j ∈ sel then (-1 : α) else isolationScore d coords sel j)).length := by
    simpa using h
  rw [List.getD_eq_getElem _ _ hlen, List.getElem_map, List.getElem_range]

theorem minDistances_ne_nil (d : City → City → α) {coords : List City}
    (h : coords ≠ []) (sel : List ℕ) : minDistances d coords sel ≠ [] := by
  intro he
  have h1 := minDistances_length d coords sel
  rw [he, List.length_nil] at h1
  exact h (List.length_eq_zero.mp h1.symm)

theorem argmax_minDistances_lt (d : City → City → α) {coords : List City}
    (h : coords ≠ []) (sel : List ℕ) :
    argmaxList (minDistances d coords sel) < coords.length := by
  have h1 := argmaxList_lt_length (minDistances_ne_nil d h sel)
  rwa [minDistances_length] at h1

theorem greedyIter_lt (d : City → City → α) {coords : List City} (h : coords ≠ [])
    (k : ℕ) : ∀ i ∈ greedyIndicesIter d coords k, i < coords.length := by
  induction k with
  | zero =>
    intro i hi
    simp only [greedyIndicesIter, List.mem_singleton] at hi
    subst hi
    exact List.length_pos.mpr h
  | succ k ih =>
    intro i hi
    simp only [greedyIndicesIter] at hi
    rcases List.mem_append.mp hi with hi1 | hi2
    · exact ih i hi1
    · rw [List.mem_singleton] at hi2
      subst hi2
      exact argmax_minDistances_lt d h _

theorem isolationScore_nonneg {d : City → City → α}
    (hnn : ∀ a b, 0 ≤ d a b) (coords : List City) {sel : List ℕ} (hsel : sel ≠ [])
    (j : ℕ) : 0 ≤ isolationScore d coords sel j := by
  apply listMin_nonneg
  · simpa using hsel
  · intro x hx
    simp only [List.mem_map] at hx
    obtain ⟨k, _, rfl⟩ := hx
    exact hnn _ _

theorem exists_unselected {sel : List ℕ} {n : ℕ} (hnd : sel.Nodup)
    (hlen : sel.length < n) : ∃ j, j < n ∧ j ∉ sel := by
  by_contra hc
  push_neg at hc
  have hsub : (List.range n) ⊆ sel := fun j hj => hc j (List.mem_range.mp hj)
  have hsp := List.subperm_of_subset (List.nodup_range n) hsub
  have h2 := hsp.length_le
  rw [List.length_range] at h2
  omega

theorem greedyIter_nodup {d : City → City → α} {coords : List City}
    (hnn : ∀ a b, 0 ≤ d a b) :
    ∀ k, k + 1 ≤ coords.length → (greedyIndicesIter d coords k).Nodup := by
  intro k
  induction k with
  | zero => intro _; simp [greedyIndicesIter]
  | succ k ih =>
    intro hk1
    have hcne : coords ≠ [] := by
      intro h; rw [h] at hk1; simp at hk1
    have hnd := ih (by omega)
    have hlen : (greedyIndicesIter d coords k).length = k + 1 :=
      greedyIter_length d coords k
    have hshow : greedyIndicesIter d coords (k + 1) =
        greedyIndicesIter d coords k ++
          [argmaxList (minDistances d coords (greedyIndicesIter d coords k))] := rfl
    rw [hshow]
    apply List.Nodup.append hnd (List.nodup_singleton _)
    intro a ha
    rw [List.mem_singleton]
    intro haA
    subst haA
    obtain ⟨j0, hj0n, hj0s⟩ := exists_unselected hnd
      (show (greedyIndicesIter d coords k).length < coords.length by omega)
    have hAlt : argmaxList (minDistances d coords (greedyIndicesIter d coords k)) <
        coords.length := argmax_minDistances_lt d hcne _
    have h1 : (minDistances d coords (greedyIndicesIter d coords k)).getD
        (argmaxList (minDistances d coords (greedyIndicesIter d coords k))) 0 =
        (-1 : α) := by
      rw [minDistances_getD hAlt, if_pos ha]
    have h2 : (minDistances d coords (greedyIndicesIter d coords k)).getD j0 0 =
        isolationScore d coords (greedyIndicesIter d coords k) j0 := by
      rw [minDistances_getD hj0n, if_neg hj0s]
    have h3 : 0 ≤ isolationScore d coords (greedyIndicesIter d coords k) j0 :=
      isolationScore_nonneg hnn coords (greedyIter_ne_nil d coords k) j0
    have h4 := argmaxList_le (show j0 <
        (minDistances d coords (greedyIndicesIter d coords k)).length by
      rw [minDistances_length]; exact hj0n)
    rw [h1, h2] at h4
    have h5 : (-1 : α) < 0 := neg_one_lt_zero
    linarith

theorem insertPopDesc_perm (c : City) (l : List City) :
    List.Perm (insertPopDesc c l) (c :: l) := by
  induction l with
  | nil => exact List.Perm.refl _
  | cons x xs ih =>
    unfold insertPopDesc
    by_cases h : x.pop < c.pop
    · rw [if_pos h]
    · rw [if_neg h]
      exact (ih.cons x).trans (List.Perm.swap c x xs)

theorem sortPopDesc_perm (l : List City) : List.Perm (sortPopDesc l) l := by
  induction l with
  | nil => exact List.Perm.refl _
  | cons x xs ih =>
    exact (insertPopDesc_perm x (sortPopDesc xs)).trans (ih.cons x)

theorem sortPopDesc_length (l : List City) : (sortPopDesc l).length = l.length :=
  (sortPopDesc_perm l).length_eq

end CitySel

namespace CitySel

variable {α : Type} [LinearOrderedField α]

/-- Claim C7 counterexample: the points (0°, -180°) and (0°, 180°) are in range,
have unequal coordinates, yet their haversine distance is 0 — so
"distance zero iff equal coordinates" fails (only the if direction holds). -/
theorem C7_cex :
    haversine_distance 0 (-180) 0 180 = 0 ∧ ¬((0 : ℝ) = 0 ∧ (-180 : ℝ) = 180) := by
  refine ⟨hav_antimeridian, ?_⟩
  rintro ⟨_, h⟩
  norm_num at h

/-- Claim C7 (amended): the metric is the haversine great-circle formula with
Earth radius 6371.0 km; for in-range coordinates it is symmetric, nonnegative,
and equal coordinates give distance zero.  (The converse — zero only for equal
coordinates — is false, see the counterexample.) -/
theorem C7_amended (lat1 lon1 lat2 lon2 : ℝ)
    (h1 : -90 ≤ lat1 ∧ lat1 ≤ 90) (h2 : -180 ≤ lon1 ∧ lon1 ≤ 180)
    (h3 : -90 ≤ lat2 ∧ lat2 ≤ 90) (h4 : -180 ≤ lon2 ∧ lon2 ≤ 180) :
    haversine_distance lat1 lon1 lat2 lon2 = haversine_distance lat2 lon2 lat1 lon1 ∧
    0 ≤ haversine_distance lat1 lon1 lat2 lon2 ∧
    (lat1 = lat2 → lon1 = lon2 → haversine_distance lat1 lon1 lat2 lon2 = 0) := by
  refine ⟨haversine_symm _ _ _ _, haversine_nonneg _ _ _ _, ?_⟩
  rintro rfl rfl
  exact haversine_self _ _

/-- Witness for C7_amended at the in-range pair (10°,20°), (30°,40°). -/
theorem C7_amended_witness :
    haversine_distance 10 20 30 40 = haversine_distance 30 40 10 20 ∧
    0 ≤ haversine_distance 10 20 30 40 ∧
    ((10 : ℝ) = 30 → (20 : ℝ) = 40 → haversine_distance 10 20 30 40 = 0) :=
  C7_amended 10 20 30 40 (by norm_num) (by norm_num) (by norm_num) (by norm_num)

/-- Claim C4: a catalog whose records carry the coordinate fields but whose
values are all missing leaves zero valid candidates; the claim says the target
degrades to 0 with a warning, but `valid_cities.iloc[[0]]` raises `IndexError`
— the pipeline aborts with an exception instead of degrading. -/
theorem C4_empty_pool_crash :
    select_dispersed_cities havDist 3
      [⟨0, none, some 5, 10⟩, ⟨1, some 2, none, 20⟩] 50 (500 : ℝ) =
      Except.error PipeError.ilocOutOfRange := rfl

/-- Claim C3 counterexample: one catalog record with both coordinates missing
and a request for 7 cities.  The claim demands a returned selection of length
min(7, 0) = 0, but the run raises `IndexError` and returns nothing. -/
theorem C3_cex :
    (select_dispersed_cities havDist 5 [⟨0, none, none, 3⟩] 7 (500 : ℝ) =
      Except.error PipeError.ilocOutOfRange) ∧
    ¬∃ l : List City,
      select_dispersed_cities havDist 5 [⟨0, none, none, 3⟩] 7 (500 : ℝ) =
        Except.ok l ∧
      l.length = min 7 (validCities [⟨0, none, none, 3⟩]).length := by
  have h : select_dispersed_cities havDist 5 [⟨0, none, none, 3⟩] 7 (500 : ℝ) =
      Except.error PipeError.ilocOutOfRange := rfl
  refine ⟨h, ?_⟩
  rintro ⟨l, hl, _⟩
  rw [h] at hl
  exact Except.noConfusion hl

/-- Claim C2: at the Replacing step the code filters pool rows by membership of
their CATALOG labels in `selected_indices`, which was seeded with the reset
positional labels 0..k-1.  On this reachable state (pool sorted by population
with catalog ids 2,0,1; selection = the two rows with ids 2 and 0) the computed
search set is the currently selected record id 2 — not the one unselected
record id 1, which the claim demands. -/
theorem C2_search_set_mismatch :
    searchSet [⟨2, 0, 0, 30⟩, ⟨0, 0, 0, 20⟩, ⟨1, 0, 90, 10⟩] (List.range 2) =
      [⟨2, 0, 0, 30⟩] ∧
    (⟨2, 0, 0, 30⟩ : City) ∈ [(⟨2, 0, 0, 30⟩ : City), ⟨0, 0, 0, 20⟩] ∧
    (⟨1, 0, 90, 10⟩ : City) ∉ [(⟨2, 0, 0, 30⟩ : City), ⟨0, 0, 0, 20⟩] ∧
    (⟨1, 0, 90, 10⟩ : City) ∈
      [(⟨2, 0, 0, 30⟩ : City), ⟨0, 0, 0, 20⟩, ⟨1, 0, 90, 10⟩] ∧
    searchSet [⟨2, 0, 0, 30⟩, ⟨0, 0, 0, 20⟩, ⟨1, 0, 90, 10⟩] (List.range 2) ≠
      ([⟨2, 0, 0, 30⟩, ⟨0, 0, 0, 20⟩, ⟨1, 0, 90, 10⟩] : List City).filter
        (fun c => c ∉ [(⟨2, 0, 0, 30⟩ : City), ⟨0, 0, 0, 20⟩]) := by
  decide

/-- Claim C9: if the selection's minimum pairwise distance already meets the
floor (Converged), the repair optimizer returns the selection unchanged. -/
theorem C9_idempotent (d : City → City → α) (sel pool : List City) (th : α)
    (fuel : ℕ) (hconv : ∀ m : α, minPairwise d sel = some m → th ≤ m) :
    post_process_city_selection d (fuel + 1) sel pool th = Except.ok sel := by
  unfold post_process_city_selection
  rw [repairLoop_succ]
  rcases hcp : closestPair d sel with _ | ⟨⟨i, j, m⟩⟩
  · rw [@repairStep_none_cp α _ d pool th ⟨sel, List.range sel.length⟩ hcp]
  · have hge : ¬ m < th := not_lt.mpr (hconv m (by rw [minPairwise, hcp]; rfl))
    rw [@repairStep_conv α _ d pool th ⟨sel, List.range sel.length⟩ i j m hcp hge]

/-- Witness for C9 on a converged two-member selection under the toy metric. -/
theorem C9_idempotent_witness :
    post_process_city_selection stepMetric 4 [⟨0, 0, 0, 1⟩, ⟨6, 0, 100, 2⟩] []
      (7 : ℚ) = Except.ok [⟨0, 0, 0, 1⟩, ⟨6, 0, 100, 2⟩] :=
  C9_idempotent stepMetric [⟨0, 0, 0, 1⟩, ⟨6, 0, 100, 2⟩] [] 7 3 (by
    intro m hm
    rw [show minPairwise stepMetric [(⟨0, 0, 0, 1⟩ : City), ⟨6, 0, 100, 2⟩] =
      some 50 from by decide] at hm
    injection hm with h
    rw [← h]
    norm_num)

end CitySel

namespace CitySel

variable {α : Type} [LinearOrderedField α]

theorem greedyIter_zero_mem (d : City → City → α) (coords : List City) (k : ℕ) :
    0 ∈ greedyIndicesIter d coords k := by
  induction k with
  | zero => simp [greedyIndicesIter]
  | succ k ih =>
    simp only [greedyIndicesIter]
    exact List.mem_append_left _ ih

theorem greedySelection_ok_inv {d : City → City → α} {rows : List RawCity}
    {n : ℕ} {sel : List City}
    (h : greedySelection d rows n = Except.ok sel) :
    ∃ idxs : List ℕ,
      idxs = greedyIndicesIter d (validCities rows)
        ((if (validCities rows).length < n then (validCities rows).length else n)
          - 1) ∧
      (∀ i ∈ idxs, i < (sortPopDesc (validCities rows)).length) ∧
      sel = idxs.map (fun i => (sortPopDesc (validCities rows)).getD i default) := by
  simp only [greedySelection] at h
  by_cases hf : ∀ i ∈ greedyIndicesIter d (validCities rows)
      ((if (validCities rows).length < n then (validCities rows).length else n) - 1),
      i < (sortPopDesc (validCities rows)).length
  · rw [if_pos hf] at h
    simp only [Except.ok.injEq] at h
    exact ⟨_, rfl, hf, h.symm⟩
  · rw [if_neg hf] at h
    exact absurd h (by simp)

/-- Claim C3 (amended): whenever `n_cities ≥ 1` and the pipeline returns a
selection (rather than raising), the selection's length equals
`min(n_cities, number of valid-coordinate records)`.  (The unamended claim
fails when there are no valid candidates — the pipeline then raises
`IndexError` — and when `n_cities = 0`, where one record is still returned.) -/
theorem C3_amended (d : City → City → α) (fuel : ℕ) (rows : List RawCity)
    (n : ℕ) (th : α) (l : List City) (hn : 1 ≤ n)
    (h : select_dispersed_cities d fuel rows n th = Except.ok l) :
    l.length = min n (validCities rows).length := by
  unfold select_dispersed_cities at h
  rcases hg : greedySelection d rows n with e | sel
  · rw [hg] at h
    exact absurd h (by simp)
  · rw [hg] at h
    unfold post_process_city_selection at h
    obtain ⟨idxs, hidxs, hbound, hsel⟩ := greedySelection_ok_inv hg
    have h0lt := hbound 0 (by rw [hidxs]; exact greedyIter_zero_mem d _ _)
    have hvpos : 0 < (validCities rows).length := by
      rw [sortPopDesc_length] at h0lt
      exact h0lt
    have hlen_sel : sel.length = min n (validCities rows).length := by
      rw [hsel, List.length_map, hidxs, greedyIter_length]
      by_cases hc : (validCities rows).length < n
      · rw [if_pos hc]
        omega
      · rw [if_neg hc]
        omega
    have hinv := repairLoop_inv d (sortPopDesc (validCities rows)) th
      (fun s => s.improved.length = sel.length)
      (by
        intro s s2 hP hstep
        obtain ⟨i, j, m, b, mm, _, _, _, _, _, hs2⟩ := repairStep_cont_inv hstep
        rw [hs2]
        simpa using hP)
      fuel ⟨sel, List.range sel.length⟩ l rfl h
    obtain ⟨s2, hP, hl⟩ := hinv
    rw [hl]
    exact hP.trans hlen_sel

/-- Witness for C3_amended: a two-record catalog, n = 2, returning both records. -/
theorem C3_amended_witness :
    (1 ≤ 2) ∧
    ([(⟨6, 0, 100, 9⟩ : City), ⟨0, 0, 0, 5⟩].length =
      min 2 (validCities [⟨0, some 0, some 0, 5⟩, ⟨6, some 0, some 100, 9⟩]).length) :=
  ⟨by norm_num,
    C3_amended stepMetric 4 [⟨0, some 0, some 0, 5⟩, ⟨6, some 0, some 100, 9⟩]
      2 1 [⟨6, 0, 100, 9⟩, ⟨0, 0, 0, 5⟩] (by norm_num) (by decide)⟩

end CitySel

namespace CitySel

variable {α : Type} [LinearOrderedField α]

theorem repairLoop_done {d : City → City → α} {pool : List City} {th : α}
    {s : RepairState}
    (h : repairStep d pool th s = Except.ok (StepOut.done s.improved)) (fuel : ℕ) :
    repairLoop d pool th (fuel + 1) s = Except.ok s.improved := by
  rw [repairLoop_succ, h]

theorem bestRepl_le (d : City → City → α) (improved : List City) (ridx : ℕ)
    (cands : List City) :
    ∀ c ∈ cands, candMinDist d improved ridx c ≤
      (bestRepl d improved ridx cands).2 :=
  (bestReplGo_le d improved ridx cands none 0).2

theorem stepMetric_nonneg : ∀ a b : City, 0 ≤ stepMetric a b := by
  intro a b
  unfold stepMetric
  split_ifs <;> norm_num

theorem stepMetric_self : ∀ c : City, stepMetric c c = 0 := by
  intro c
  unfold stepMetric
  rw [if_pos rfl]

theorem stepMetric_symm : ∀ a b : City, stepMetric a b = stepMetric b a := by
  intro a b
  unfold stepMetric
  split_ifs <;> first
    | rfl
    | (exfalso; omega)

/-- Claim C8: once the scan has found a violating pair (minimum distance `m`
below the floor) and the removal target's label is still tracked in
`selected_indices`, a replacement is committed — the loop continues with a new
state — if and only if some candidate in the searched set has a min-distance
score strictly exceeding `m`; otherwise the step keeps the selection unchanged
and the loop stops, returning it with the violation still present. -/
theorem C8_commit_iff (d : City → City → α) (hnn : ∀ a b, 0 ≤ d a b)
    (pool : List City) (th : α) (s : RepairState) (i j : ℕ) (m : α)
    (hcp : closestPair d s.improved = some (i, j, m)) (hlt : m < th)
    (hrm : removalTarget (s.improved.getD i default) (s.improved.getD j default) i j
      ∈ s.selectedIdx) :
    ((∃ s2, repairStep d pool th s = Except.ok (StepOut.cont s2)) ↔
      ∃ c ∈ searchSet pool s.selectedIdx,
        m < candMinDist d s.improved
          (removalTarget (s.improved.getD i default) (s.improved.getD j default) i j)
          c) ∧
    ((¬ ∃ c ∈ searchSet pool s.selectedIdx,
        m < candMinDist d s.improved
          (removalTarget (s.improved.getD i default) (s.improved.getD j default) i j)
          c) →
      repairStep d pool th s = Except.ok (StepOut.done s.improved) ∧
      ∀ fuel, repairLoop d pool th (fuel + 1) s = Except.ok s.improved) := by
  have hm0 : 0 ≤ m := by
    obtain ⟨_, _, hmd, _⟩ := closestPair_spec hcp
    rw [hmd]
    exact hnn _ _
  rcases hbr : bestRepl d s.improved
      (removalTarget (s.improved.getD i default) (s.improved.getD j default) i j)
      (searchSet pool s.selectedIdx) with ⟨bo, mm⟩
  cases bo with
  | none =>
    obtain ⟨hmm0, hall⟩ := bestRepl_none hbr
    have hstall := repairStep_stall_nobest hcp hlt hbr
    constructor
    · constructor
      · rintro ⟨s2, hs2⟩
        rw [hstall] at hs2
        simp at hs2
      · rintro ⟨c, hcmem, hc⟩
        have := hall c hcmem
        linarith
    · intro _
      exact ⟨hstall, repairLoop_done hstall⟩
  | some b =>
    obtain ⟨hbmem, hbmm, hmmpos⟩ := bestRepl_some hbr
    by_cases hmm : m < mm
    · have hcommit := repairStep_commit hcp hlt hbr hmm hrm
      constructor
      · constructor
        · intro _
          refine ⟨b, hbmem, ?_⟩
          rw [← hbmm]
          exact hmm
        · intro _
          exact ⟨_, hcommit⟩
      · intro hne
        exact absurd ⟨b, hbmem, by rw [← hbmm]; exact hmm⟩ hne
    · have hstall := repairStep_stall_score hcp hlt hbr hmm
      constructor
      · constructor
        · rintro ⟨s2, hs2⟩
          rw [hstall] at hs2
          simp at hs2
        · rintro ⟨c, hcmem, hc⟩
          have h1 := bestRepl_le d s.improved
            (removalTarget (s.improved.getD i default) (s.improved.getD j default) i j)
            (searchSet pool s.selectedIdx) c hcmem
          rw [hbr] at h1
          have h2 : mm ≤ m := not_lt.mp hmm
          simp only at h1
          linarith
      · intro _
        exact ⟨hstall, repairLoop_done hstall⟩

/-- Witness for C8: a state with a violating pair at distance 1 (floor 10) and
a far candidate with score 50; the iff yields a committed replacement. -/
theorem C8_commit_iff_witness :
    ∃ s2, repairStep stepMetric [⟨5, 0, 30, 1⟩] (10 : ℚ)
      ⟨[⟨0, 0, 0, 1⟩, ⟨1, 0, 1, 2⟩], [0, 1]⟩ = Except.ok (StepOut.cont s2) :=
  (C8_commit_iff stepMetric stepMetric_nonneg [⟨5, 0, 30, 1⟩] 10
    ⟨[⟨0, 0, 0, 1⟩, ⟨1, 0, 1, 2⟩], [0, 1]⟩ 0 1 1 (by decide) (by norm_num)
    (by decide)).1.mpr ⟨⟨5, 0, 30, 1⟩, by decide, by decide⟩

end CitySel

namespace CitySel

variable {α : Type} [LinearOrderedField α]

theorem getD_set_self_city {l : List City} {r : ℕ} (h : r < l.length) (b : City) :
    (l.set r b).getD r default = b := by
  rw [List.getD_eq_getElem _ _ (by rw [List.length_set]; exact h)]
  exact List.getElem_set_self _

theorem getD_set_ne_city {l : List City} {r p : ℕ} (hne : r ≠ p) (b : City) :
    (l.set r b).getD p default = l.getD p default := by
  by_cases hp : p < l.length
  · rw [List.getD_eq_getElem _ _ (by rw [List.length_set]; exact hp),
      List.getD_eq_getElem _ _ hp]
    exact List.getElem_set_ne hne _
  · rw [List.getD_eq_default _ _ (by rw [List.length_set]; omega),
      List.getD_eq_default _ _ (by omega)]

theorem pairFold_some_of_some {d : City → City → α} {sel : List City} :
    ∀ (L : List (ℕ × ℕ)) (t : ℕ × ℕ × α),
      ∃ t2, L.foldl (pairStep d sel) (some t) = some t2 := by
  intro L
  induction L with
  | nil => intro t; exact ⟨t, rfl⟩
  | cons pq L ih =>
    intro t
    rw [List.foldl_cons]
    rcases t with ⟨i, j, m⟩
    rw [pairStep_some]
    by_cases h : d (sel.getD pq.1 default) (sel.getD pq.2 default) < m
    · rw [if_pos h]; exact ih _
    · rw [if_neg h]; exact ih _

theorem closestPair_isSome (d : City → City → α) {sel : List City}
    (h : 2 ≤ sel.length) : ∃ t, closestPair d sel = some t := by
  unfold closestPair
  rcases hpl : pairList sel.length with _ | ⟨pq, L⟩
  · have hmem : ((0 : ℕ), (1 : ℕ)) ∈ pairList sel.length :=
      pairList_mem.mpr ⟨one_pos, by omega⟩
    rw [hpl] at hmem
    cases hmem
  · rw [List.foldl_cons, pairStep_none]
    exact pairFold_some_of_some L _

theorem candMinDist_le (d : City → City → α) {improved : List City} {ridx q : ℕ}
    (hq : q < improved.length) (hne : q ≠ ridx) (c : City) :
    candMinDist d improved ridx c ≤ d c (improved.getD q default) := by
  apply listMin_le
  simp only [List.mem_map, List.mem_filter, List.mem_range, decide_eq_true_eq]
  exact ⟨q, ⟨hq, hne⟩, rfl⟩

/-- Claim C6 (amended): every accepted replacement keeps the selection's
minimum pairwise distance from decreasing, and the incoming member's own
minimum distance to the retained members strictly exceeds the previous
minimum.  Strict increase of the overall minimum — the unamended claim — fails
when the previous minimum is also attained by a second, untouched pair. -/
theorem C6_amended (d : City → City → α) (hsym : ∀ a b, d a b = d b a)
    (pool : List City) (th : α) (s s2 : RepairState)
    (hstep : repairStep d pool th s = Except.ok (StepOut.cont s2)) :
    ∃ r b m m2,
      minPairwise d s.improved = some m ∧
      s2.improved = s.improved.set r b ∧
      m < candMinDist d s.improved r b ∧
      minPairwise d s2.improved = some m2 ∧
      m ≤ m2 := by
  obtain ⟨i, j, m, b, mm, hcp, hlt, hbr, hmm, hrm, hs2⟩ := repairStep_cont_inv hstep
  obtain ⟨hij, hjlen, hmd, hmin⟩ := closestPair_spec hcp
  obtain ⟨hbmem, hbmm, hmmpos⟩ := bestRepl_some hbr
  have hcmd : m < candMinDist d s.improved
      (removalTarget (s.improved.getD i default) (s.improved.getD j default) i j)
      b := by
    rw [hbmm] at hmm
    exact hmm
  have hrtlen : removalTarget (s.improved.getD i default) (s.improved.getD j default)
      i j < s.improved.length := by
    unfold removalTarget
    by_cases hp : (s.improved.getD i default).pop < (s.improved.getD j default).pop
    · rw [if_pos hp]; omega
    · rw [if_neg hp]; exact hjlen
  have himp2 : s2.improved = s.improved.set
      (removalTarget (s.improved.getD i default) (s.improved.getD j default) i j)
      b := by rw [hs2]
  have hlen2 : s2.improved.length = s.improved.length := by
    rw [himp2, List.length_set]
  obtain ⟨t2, hcp2⟩ := closestPair_isSome d
    (show 2 ≤ s2.improved.length by omega)
  rcases t2 with ⟨p, q, m2⟩
  obtain ⟨hpq2, hq2, hm2d, _⟩ := closestPair_spec hcp2
  refine ⟨removalTarget (s.improved.getD i default) (s.improved.getD j default) i j,
    b, m, m2, by rw [minPairwise, hcp]; rfl, himp2, hcmd,
    by rw [minPairwise, hcp2]; rfl, ?_⟩
  have hqlen : q < s.improved.length := by omega
  have hplen : p < s.improved.length := lt_trans hpq2 hqlen
  rw [hm2d]
  by_cases hprt : p = removalTarget (s.improved.getD i default)
      (s.improved.getD j default) i j
  · have hqne : q ≠ removalTarget (s.improved.getD i default)
        (s.improved.getD j default) i j := by omega
    have e1 : s2.improved.getD p default = b := by
      rw [himp2, hprt]
      exact getD_set_self_city hrtlen b
    have e2 : s2.improved.getD q default = s.improved.getD q default := by
      rw [himp2]
      exact getD_set_ne_city (fun he => hqne he.symm) b
    rw [e1, e2]
    exact le_of_lt (lt_of_lt_of_le hcmd (candMinDist_le d hqlen hqne b))
  · by_cases hqrt : q = removalTarget (s.improved.getD i default)
        (s.improved.getD j default) i j
    · have e1 : s2.improved.getD q default = b := by
        rw [himp2, hqrt]
        exact getD_set_self_city hrtlen b
      have e2 : s2.improved.getD p default = s.improved.getD p default := by
        rw [himp2]
        exact getD_set_ne_city (fun he => hprt he.symm) b
      rw [e1, e2, hsym]
      refine le_of_lt (lt_of_lt_of_le hcmd (candMinDist_le d hplen ?_ b))
      intro he
      exact hprt he
    · have e1 : s2.improved.getD p default = s.improved.getD p default := by
        rw [himp2]
        exact getD_set_ne_city (fun he => hprt he.symm) b
      have e2 : s2.improved.getD q default = s.improved.getD q default := by
        rw [himp2]
        exact getD_set_ne_city (fun he => hqrt he.symm) b
      rw [e1, e2]
      exact hmin p q hpq2 hqlen

/-- Witness for C6_amended: the toy-metric state of the C8 witness, where the
committed swap replaces position 0 with the far candidate. -/
theorem C6_amended_witness :
    ∃ r b m m2,
      minPairwise stepMetric [(⟨0, 0, 0, 1⟩ : City), ⟨1, 0, 1, 2⟩] = some m ∧
      (RepairState.mk [⟨5, 0, 30, 1⟩, ⟨1, 0, 1, 2⟩] [1, 5]).improved =
        [(⟨0, 0, 0, 1⟩ : City), ⟨1, 0, 1, 2⟩].set r b ∧
      m < candMinDist stepMetric [(⟨0, 0, 0, 1⟩ : City), ⟨1, 0, 1, 2⟩] r b ∧
      minPairwise stepMetric
        (RepairState.mk [⟨5, 0, 30, 1⟩, ⟨1, 0, 1, 2⟩] [1, 5]).improved = some m2 ∧
      m ≤ m2 :=
  C6_amended stepMetric stepMetric_symm [⟨5, 0, 30, 1⟩] 10
    ⟨[⟨0, 0, 0, 1⟩, ⟨1, 0, 1, 2⟩], [0, 1]⟩ ⟨[⟨5, 0, 30, 1⟩, ⟨1, 0, 1, 2⟩], [1, 5]⟩
    (by decide)

end CitySel

namespace CitySel

variable {α : Type} [LinearOrderedField α]

theorem havDist_u4_v4 :
    havDist ⟨0, 0, 0, 4⟩ ⟨1, 0, 90, 4⟩ = 6371 * (π / 2) := by
  rw [havDist_mk]
  push_cast
  exact hav_00_90

theorem havDist_w_u4 :
    havDist ⟨10, 0, 180, 1⟩ ⟨0, 0, 0, 4⟩ = 6371 * π := by
  rw [havDist_mk]
  push_cast
  rw [haversine_symm]
  exact hav_00_180

theorem closestPair_u4v4 :
    closestPair havDist [(⟨0, 0, 0, 4⟩ : City), ⟨1, 0, 90, 4⟩] =
      some (0, 1, 6371 * (π / 2)) := by
  unfold closestPair
  rw [show pairList ([(⟨0, 0, 0, 4⟩ : City), ⟨1, 0, 90, 4⟩] : List City).length =
    [(0, 1)] from by decide]
  rw [List.foldl_cons, pairStep_none, List.foldl_nil]
  rw [show ([(⟨0, 0, 0, 4⟩ : City), ⟨1, 0, 90, 4⟩].getD (0, 1).1 default) =
    ⟨0, 0, 0, 4⟩ from rfl]
  rw [show ([(⟨0, 0, 0, 4⟩ : City), ⟨1, 0, 90, 4⟩].getD (0, 1).2 default) =
    ⟨1, 0, 90, 4⟩ from rfl]
  rw [havDist_u4_v4]

theorem candMinDist_u4v4_w :
    candMinDist havDist [(⟨0, 0, 0, 4⟩ : City), ⟨1, 0, 90, 4⟩] 1 ⟨10, 0, 180, 1⟩ =
      6371 * π := by
  show listMin (((List.range 2).filter (fun p => p ≠ 1)).map
    (fun p => havDist ⟨10, 0, 180, 1⟩
      ([(⟨0, 0, 0, 4⟩ : City), ⟨1, 0, 90, 4⟩].getD p default))) = 6371 * π
  rw [show (List.range 2).filter (fun p => p ≠ 1) = [0] from by decide]
  show havDist ⟨10, 0, 180, 1⟩ ⟨0, 0, 0, 4⟩ = 6371 * π
  exact havDist_w_u4

theorem bestRepl_u4v4_w :
    bestRepl havDist [(⟨0, 0, 0, 4⟩ : City), ⟨1, 0, 90, 4⟩] 1
      (searchSet [⟨10, 0, 180, 1⟩] [0, 1]) = (some ⟨10, 0, 180, 1⟩, 6371 * π) := by
  rw [show searchSet [(⟨10, 0, 180, 1⟩ : City)] [0, 1] = [⟨10, 0, 180, 1⟩] from
    by decide]
  unfold bestRepl
  rw [bestReplGo_cons, candMinDist_u4v4_w, if_pos (by positivity)]
  rfl

/-- Claim C10 counterexample: with two members of EQUAL population forming the
violating pair, the code removes the SECOND member of the pair (position 1),
not the first occurrence in scan order as the claim states; the step is
otherwise a normal committed replacement. -/
theorem C10_cex :
    (⟨0, 0, 0, 4⟩ : City).pop = (⟨1, 0, 90, 4⟩ : City).pop ∧
    removalTarget ⟨0, 0, 0, 4⟩ ⟨1, 0, 90, 4⟩ 0 1 = 1 ∧
    repairStep havDist [⟨10, 0, 180, 1⟩] (30000 : ℝ)
      ⟨[⟨0, 0, 0, 4⟩, ⟨1, 0, 90, 4⟩], [0, 1]⟩ =
      Except.ok (StepOut.cont ⟨[⟨0, 0, 0, 4⟩, ⟨10, 0, 180, 1⟩], [0, 10]⟩) := by
  refine ⟨rfl, by decide, ?_⟩
  have hrt : removalTarget
      (([(⟨0, 0, 0, 4⟩ : City), ⟨1, 0, 90, 4⟩]).getD 0 default)
      (([(⟨0, 0, 0, 4⟩ : City), ⟨1, 0, 90, 4⟩]).getD 1 default) 0 1 = 1 := by decide
  have hlt : 6371 * (π / 2) < (30000 : ℝ) := by
    nlinarith [Real.pi_lt_315]
  have hmm : 6371 * (π / 2) < 6371 * π := by
    nlinarith [Real.pi_pos]
  have hbr2 : bestRepl havDist [(⟨0, 0, 0, 4⟩ : City), ⟨1, 0, 90, 4⟩]
      (removalTarget (([(⟨0, 0, 0, 4⟩ : City), ⟨1, 0, 90, 4⟩]).getD 0 default)
        (([(⟨0, 0, 0, 4⟩ : City), ⟨1, 0, 90, 4⟩]).getD 1 default) 0 1)
      (searchSet [⟨10, 0, 180, 1⟩] [0, 1]) = (some ⟨10, 0, 180, 1⟩, 6371 * π) := by
    rw [hrt]
    exact bestRepl_u4v4_w
  have hrm : removalTarget
      (([(⟨0, 0, 0, 4⟩ : City), ⟨1, 0, 90, 4⟩]).getD 0 default)
      (([(⟨0, 0, 0, 4⟩ : City), ⟨1, 0, 90, 4⟩]).getD 1 default) 0 1 ∈
      ([0, 1] : List ℕ) := by
    rw [hrt]
    simp
  have hstep := @repairStep_commit ℝ _ havDist [⟨10, 0, 180, 1⟩] 30000
    ⟨[⟨0, 0, 0, 4⟩, ⟨1, 0, 90, 4⟩], [0, 1]⟩ 0 1 (6371 * (π / 2)) (6371 * π)
    ⟨10, 0, 180, 1⟩ closestPair_u4v4 hlt hbr2 hmm hrm
  rw [hstep]
  rw [hrt]
  rfl

/-- Claim C10 (amended): the pipeline's choice points are deterministic
functions of the scan so far — `np.argmax` returns the first maximal entry,
the closest-pair scan keeps the first pair attaining the minimum in its
enumeration order, and the removal target on tied populations is the second
member of the pair (the unamended claim said first occurrence for all three). -/
theorem C10_amended :
    (∀ (l : List α) (k : ℕ), k < argmaxList l →
      l.getD k 0 < l.getD (argmaxList l) 0) ∧
    (∀ (d : City → City → α) (sel : List City) (i j : ℕ) (m : α),
      closestPair d sel = some (i, j, m) →
      ∃ L1 L2, pairList sel.length = L1 ++ (i, j) :: L2 ∧
        ∀ pq ∈ L1, m < d (sel.getD pq.1 default) (sel.getD pq.2 default)) ∧
    (∀ (ci cj : City) (i j : ℕ), ci.pop = cj.pop → removalTarget ci cj i j = j) := by
  refine ⟨fun l k hk => argmaxList_first k hk,
    fun d sel i j m h => closestPair_first h, ?_⟩
  intro ci cj i j hpop
  unfold removalTarget
  rw [if_neg (by rw [hpop]; exact lt_irrefl _)]

/-- Witness for C10_amended at concrete rational inputs. -/
theorem C10_amended_witness :
    ([(3 : ℚ), 7, 7].getD 0 0 < [(3 : ℚ), 7, 7].getD (argmaxList [(3 : ℚ), 7, 7]) 0) ∧
    (∃ L1 L2, pairList ([(⟨0, 0, 0, 1⟩ : City), ⟨6, 0, 0, 2⟩]).length =
      L1 ++ ((0, 1) : ℕ × ℕ) :: L2 ∧
      ∀ pq ∈ L1, (50 : ℚ) < stepMetric
        ([(⟨0, 0, 0, 1⟩ : City), ⟨6, 0, 0, 2⟩].getD pq.1 default)
        ([(⟨0, 0, 0, 1⟩ : City), ⟨6, 0, 0, 2⟩].getD pq.2 default)) ∧
    removalTarget ⟨0, 0, 0, 4⟩ ⟨1, 0, 90, 4⟩ 0 1 = 1 :=
  ⟨(@C10_amended ℚ _).1 [(3 : ℚ), 7, 7] 0 (by decide),
   (@C10_amended ℚ _).2.1 stepMetric [⟨0, 0, 0, 1⟩, ⟨6, 0, 0, 2⟩] 0 1 50 (by decide),
   (@C10_amended ℚ _).2.2 ⟨0, 0, 0, 4⟩ ⟨1, 0, 90, 4⟩ 0 1 rfl⟩

end CitySel

namespace CitySel

variable {α : Type} [LinearOrderedField α]

theorem pairStep_keep {d : City → City → α} {sel : List City} {i j : ℕ} {m : α}
    (pq : ℕ × ℕ) (h : ¬ d (sel.getD pq.1 default) (sel.getD pq.2 default) < m) :
    pairStep d sel (some (i, j, m)) pq = some (i, j, m) := by
  rw [pairStep_some, if_neg h]

theorem pairStep_new {d : City → City → α} {sel : List City} {i j : ℕ} {m : α}
    (pq : ℕ × ℕ) (h : d (sel.getD pq.1 default) (sel.getD pq.2 default) < m) :
    pairStep d sel (some (i, j, m)) pq =
      some (pq.1, pq.2, d (sel.getD pq.1 default) (sel.getD pq.2 default)) := by
  rw [pairStep_some, if_pos h]

theorem hav_c00 (i j : ℕ) (p q y : ℚ) : havDist ⟨i, 0, y, p⟩ ⟨j, 0, y, q⟩ = 0 := by
  rw [havDist_mk]
  exact haversine_self _ _

theorem hav_c090 (i j : ℕ) (p q : ℚ) :
    havDist ⟨i, 0, 0, p⟩ ⟨j, 0, 90, q⟩ = 6371 * (π / 2) := by
  rw [havDist_mk]
  push_cast
  exact hav_00_90

theorem hav_c0180 (i j : ℕ) (p q : ℚ) :
    havDist ⟨i, 0, 0, p⟩ ⟨j, 0, 180, q⟩ = 6371 * π := by
  rw [havDist_mk]
  push_cast
  exact hav_00_180

theorem hav_c1800 (i j : ℕ) (p q : ℚ) :
    havDist ⟨i, 0, 180, p⟩ ⟨j, 0, 0, q⟩ = 6371 * π := by
  rw [havDist_mk]
  push_cast
  rw [haversine_symm]
  exact hav_00_180

theorem hav_c18090 (i j : ℕ) (p q : ℚ) :
    havDist ⟨i, 0, 180, p⟩ ⟨j, 0, 90, q⟩ = 6371 * (π / 2) := by
  rw [havDist_mk]
  push_cast
  rw [haversine_symm]
  exact hav_90_180

theorem closestPair_c6_before :
    closestPair havDist
      [(⟨0, 0, 0, 5⟩ : City), ⟨1, 0, 0, 3⟩, ⟨2, 0, 90, 7⟩, ⟨3, 0, 90, 9⟩] =
      some (0, 1, 0) := by
  have hK2 : (0 : ℝ) < 6371 * (π / 2) := by positivity
  unfold closestPair
  rw [show pairList ([(⟨0, 0, 0, 5⟩ : City), ⟨1, 0, 0, 3⟩, ⟨2, 0, 90, 7⟩,
      ⟨3, 0, 90, 9⟩] : List City).length =
    [(0, 1), (0, 2), (0, 3), (1, 2), (1, 3), (2, 3)] from by decide]
  rw [List.foldl_cons, pairStep_none]
  rw [show (([(⟨0, 0, 0, 5⟩ : City), ⟨1, 0, 0, 3⟩, ⟨2, 0, 90, 7⟩,
      ⟨3, 0, 90, 9⟩].getD ((0, 1) : ℕ × ℕ).1 default) : City) = ⟨0, 0, 0, 5⟩ from rfl]
  rw [show (([(⟨0, 0, 0, 5⟩ : City), ⟨1, 0, 0, 3⟩, ⟨2, 0, 90, 7⟩,
      ⟨3, 0, 90, 9⟩].getD ((0, 1) : ℕ × ℕ).2 default) : City) = ⟨1, 0, 0, 3⟩ from rfl]
  rw [hav_c00 0 1 5 3 0]
  rw [List.foldl_cons, pairStep_keep (0, 2) (by
    show ¬ havDist ⟨0, 0, 0, 5⟩ ⟨2, 0, 90, 7⟩ < 0
    rw [hav_c090 0 2 5 7]
    exact not_lt.mpr hK2.le)]
  rw [List.foldl_cons, pairStep_keep (0, 3) (by
    show ¬ havDist ⟨0, 0, 0, 5⟩ ⟨3, 0, 90, 9⟩ < 0
    rw [hav_c090 0 3 5 9]
    exact not_lt.mpr hK2.le)]
  rw [List.foldl_cons, pairStep_keep (1, 2) (by
    show ¬ havDist ⟨1, 0, 0, 3⟩ ⟨2, 0, 90, 7⟩ < 0
    rw [hav_c090 1 2 3 7]
    exact not_lt.mpr hK2.le)]
  rw [List.foldl_cons, pairStep_keep (1, 3) (by
    show ¬ havDist ⟨1, 0, 0, 3⟩ ⟨3, 0, 90, 9⟩ < 0
    rw [hav_c090 1 3 3 9]
    exact not_lt.mpr hK2.le)]
  rw [List.foldl_cons, pairStep_keep (2, 3) (by
    show ¬ havDist ⟨2, 0, 90, 7⟩ ⟨3, 0, 90, 9⟩ < 0
    rw [hav_c00 2 3 7 9 90]
    exact lt_irrefl 0)]
  rfl

theorem closestPair_c6_after :
    closestPair havDist
      [(⟨0, 0, 0, 5⟩ : City), ⟨10, 0, 180, 1⟩, ⟨2, 0, 90, 7⟩, ⟨3, 0, 90, 9⟩] =
      some (2, 3, 0) := by
  have hK2 : (0 : ℝ) < 6371 * (π / 2) := by positivity
  have hK23 : 6371 * (π / 2) < 6371 * π := by nlinarith [Real.pi_pos]
  unfold closestPair
  rw [show pairList ([(⟨0, 0, 0, 5⟩ : City), ⟨10, 0, 180, 1⟩, ⟨2, 0, 90, 7⟩,
      ⟨3, 0, 90, 9⟩] : List City).length =
    [(0, 1), (0, 2), (0, 3), (1, 2), (1, 3), (2, 3)] from by decide]
  rw [List.foldl_cons, pairStep_none]
  rw [show (([(⟨0, 0, 0, 5⟩ : City), ⟨10, 0, 180, 1⟩, ⟨2, 0, 90, 7⟩,
      ⟨3, 0, 90, 9⟩].getD ((0, 1) : ℕ × ℕ).1 default) : City) = ⟨0, 0, 0, 5⟩ from rfl]
  rw [show (([(⟨0, 0, 0, 5⟩ : City), ⟨10, 0, 180, 1⟩, ⟨2, 0, 90, 7⟩,
      ⟨3, 0, 90, 9⟩].getD ((0, 1) : ℕ × ℕ).2 default) : City) = ⟨10, 0, 180, 1⟩ from rfl]
  rw [hav_c0180 0 10 5 1]
  rw [List.foldl_cons, pairStep_new (0, 2) (by
    show havDist ⟨0, 0, 0, 5⟩ ⟨2, 0, 90, 7⟩ < 6371 * π
    rw [hav_c090 0 2 5 7]
    exact hK23)]
  rw [show (([(⟨0, 0, 0, 5⟩ : City), ⟨10, 0, 180, 1⟩, ⟨2, 0, 90, 7⟩,
      ⟨3, 0, 90, 9⟩].getD ((0, 2) : ℕ × ℕ).1 default) : City) = ⟨0, 0, 0, 5⟩ from rfl]
  rw [show (([(⟨0, 0, 0, 5⟩ : City), ⟨10, 0, 180, 1⟩, ⟨2, 0, 90, 7⟩,
      ⟨3, 0, 90, 9⟩].getD ((0, 2) : ℕ × ℕ).2 default) : City) = ⟨2, 0, 90, 7⟩ from rfl]
  rw [hav_c090 0 2 5 7]
  rw [List.foldl_cons, pairStep_keep (0, 3) (by
    show ¬ havDist ⟨0, 0, 0, 5⟩ ⟨3, 0, 90, 9⟩ < 6371 * (π / 2)
    rw [hav_c090 0 3 5 9]
    exact lt_irrefl _)]
  rw [List.foldl_cons, pairStep_keep (1, 2) (by
    show ¬ havDist ⟨10, 0, 180, 1⟩ ⟨2, 0, 90, 7⟩ < 6371 * (π / 2)
    rw [hav_c18090 10 2 1 7]
    exact lt_irrefl _)]
  rw [List.foldl_cons, pairStep_keep (1, 3) (by
    show ¬ havDist ⟨10, 0, 180, 1⟩ ⟨3, 0, 90, 9⟩ < 6371 * (π / 2)
    rw [hav_c18090 10 3 1 9]
    exact lt_irrefl _)]
  rw [List.foldl_cons, pairStep_new (2, 3) (by
    show havDist ⟨2, 0, 90, 7⟩ ⟨3, 0, 90, 9⟩ < 6371 * (π / 2)
    rw [hav_c00 2 3 7 9 90]
    exact hK2)]
  rw [show (([(⟨0, 0, 0, 5⟩ : City), ⟨10, 0, 180, 1⟩, ⟨2, 0, 90, 7⟩,
      ⟨3, 0, 90, 9⟩].getD ((2, 3) : ℕ × ℕ).1 default) : City) = ⟨2, 0, 90, 7⟩ from rfl]
  rw [show (([(⟨0, 0, 0, 5⟩ : City), ⟨10, 0, 180, 1⟩, ⟨2, 0, 90, 7⟩,
      ⟨3, 0, 90, 9⟩].getD ((2, 3) : ℕ × ℕ).2 default) : City) = ⟨3, 0, 90, 9⟩ from rfl]
  rw [hav_c00 2 3 7 9 90, List.foldl_nil]

end CitySel

namespace CitySel

theorem candMinDist_c6_E :
    candMinDist havDist
      [(⟨0, 0, 0, 5⟩ : City), ⟨1, 0, 0, 3⟩, ⟨2, 0, 90, 7⟩, ⟨3, 0, 90, 9⟩] 1
      ⟨10, 0, 180, 1⟩ = 6371 * (π / 2) := by
  show listMin (((List.range 4).filter (fun p => p ≠ 1)).map
    (fun p => havDist ⟨10, 0, 180, 1⟩
      ([(⟨0, 0, 0, 5⟩ : City), ⟨1, 0, 0, 3⟩, ⟨2, 0, 90, 7⟩,
        ⟨3, 0, 90, 9⟩].getD p default))) = 6371 * (π / 2)
  rw [show (List.range 4).filter (fun p => p ≠ 1) = [0, 2, 3] from by decide]
  show listMin [havDist ⟨10, 0, 180, 1⟩ ⟨0, 0, 0, 5⟩,
    havDist ⟨10, 0, 180, 1⟩ ⟨2, 0, 90, 7⟩,
    havDist ⟨10, 0, 180, 1⟩ ⟨3, 0, 90, 9⟩] = 6371 * (π / 2)
  rw [hav_c1800 10 0 1 5, hav_c18090 10 2 1 7, hav_c18090 10 3 1 9]
  show min (min (6371 * π) (6371 * (π / 2))) (6371 * (π / 2)) = 6371 * (π / 2)
  rw [min_eq_right (by nlinarith [Real.pi_pos] : 6371 * (π / 2) ≤ 6371 * π), min_self]

theorem bestRepl_c6_E :
    bestRepl havDist
      [(⟨0, 0, 0, 5⟩ : City), ⟨1, 0, 0, 3⟩, ⟨2, 0, 90, 7⟩, ⟨3, 0, 90, 9⟩] 1
      (searchSet [⟨10, 0, 180, 1⟩] [0, 1, 2, 3]) =
      (some ⟨10, 0, 180, 1⟩, 6371 * (π / 2)) := by
  rw [show searchSet [(⟨10, 0, 180, 1⟩ : City)] [0, 1, 2, 3] = [⟨10, 0, 180, 1⟩]
    from by decide]
  unfold bestRepl
  rw [bestReplGo_cons, candMinDist_c6_E, if_pos (by positivity)]
  rfl

/-- Claim C6 counterexample: a selection with TWO coincident pairs at distance
0 (positions 0,1 and positions 2,3).  The committed replacement swaps out
position 1 for a remote candidate whose score 6371·(π/2) strictly exceeds the
violating pair's distance 0, yet the untouched second pair keeps the
selection's minimum pairwise distance at 0 — the accepted replacement does NOT
strictly increase the selection's minimum pairwise distance. -/
theorem C6_cex :
    repairStep havDist [⟨10, 0, 180, 1⟩] (500 : ℝ)
      ⟨[⟨0, 0, 0, 5⟩, ⟨1, 0, 0, 3⟩, ⟨2, 0, 90, 7⟩, ⟨3, 0, 90, 9⟩], [0, 1, 2, 3]⟩ =
      Except.ok (StepOut.cont
        ⟨[⟨0, 0, 0, 5⟩, ⟨10, 0, 180, 1⟩, ⟨2, 0, 90, 7⟩, ⟨3, 0, 90, 9⟩],
         [0, 2, 3, 10]⟩) ∧
    minPairwise havDist
      [(⟨0, 0, 0, 5⟩ : City), ⟨1, 0, 0, 3⟩, ⟨2, 0, 90, 7⟩, ⟨3, 0, 90, 9⟩] =
      some 0 ∧
    minPairwise havDist
      [(⟨0, 0, 0, 5⟩ : City), ⟨10, 0, 180, 1⟩, ⟨2, 0, 90, 7⟩, ⟨3, 0, 90, 9⟩] =
      some 0 := by
  refine ⟨?_, by rw [minPairwise, closestPair_c6_before]; rfl,
    by rw [minPairwise, closestPair_c6_after]; rfl⟩
  have hrt : removalTarget
      (([(⟨0, 0, 0, 5⟩ : City), ⟨1, 0, 0, 3⟩, ⟨2, 0, 90, 7⟩,
        ⟨3, 0, 90, 9⟩]).getD 0 default)
      (([(⟨0, 0, 0, 5⟩ : City), ⟨1, 0, 0, 3⟩, ⟨2, 0, 90, 7⟩,
        ⟨3, 0, 90, 9⟩]).getD 1 default) 0 1 = 1 := by decide
  have hlt : (0 : ℝ) < 500 := by norm_num
  have hmm : (0 : ℝ) < 6371 * (π / 2) := by positivity
  have hbr2 : bestRepl havDist
      [(⟨0, 0, 0, 5⟩ : City), ⟨1, 0, 0, 3⟩, ⟨2, 0, 90, 7⟩, ⟨3, 0, 90, 9⟩]
      (removalTarget
        (([(⟨0, 0, 0, 5⟩ : City), ⟨1, 0, 0, 3⟩, ⟨2, 0, 90, 7⟩,
          ⟨3, 0, 90, 9⟩]).getD 0 default)
        (([(⟨0, 0, 0, 5⟩ : City), ⟨1, 0, 0, 3⟩, ⟨2, 0, 90, 7⟩,
          ⟨3, 0, 90, 9⟩]).getD 1 default) 0 1)
      (searchSet [⟨10, 0, 180, 1⟩] [0, 1, 2, 3]) =
      (some ⟨10, 0, 180, 1⟩, 6371 * (π / 2)) := by
    rw [hrt]
    exact bestRepl_c6_E
  have hrm : removalTarget
      (([(⟨0, 0, 0, 5⟩ : City), ⟨1, 0, 0, 3⟩, ⟨2, 0, 90, 7⟩,
        ⟨3, 0, 90, 9⟩]).getD 0 default)
      (([(⟨0, 0, 0, 5⟩ : City), ⟨1, 0, 0, 3⟩, ⟨2, 0, 90, 7⟩,
        ⟨3, 0, 90, 9⟩]).getD 1 default) 0 1 ∈ ([0, 1, 2, 3] : List ℕ) := by
    rw [hrt]
    simp
  have hstep := @repairStep_commit ℝ _ havDist [⟨10, 0, 180, 1⟩] 500
    ⟨[⟨0, 0, 0, 5⟩, ⟨1, 0, 0, 3⟩, ⟨2, 0, 90, 7⟩, ⟨3, 0, 90, 9⟩], [0, 1, 2, 3]⟩
    0 1 0 (6371 * (π / 2)) ⟨10, 0, 180, 1⟩
    closestPair_c6_before hlt hbr2 hmm hrm
  rw [hstep, hrt]
  rfl

end CitySel

namespace CitySel

theorem hav_c900 (i j : ℕ) (p q : ℚ) :
    havDist ⟨i, 0, 90, p⟩ ⟨j, 0, 0, q⟩ = 6371 * (π / 2) := by
  rw [havDist_mk]
  push_cast
  rw [haversine_symm]
  exact hav_00_90

theorem hav_c90180 (i j : ℕ) (p q : ℚ) :
    havDist ⟨i, 0, 90, p⟩ ⟨j, 0, 180, q⟩ = 6371 * (π / 2) := by
  rw [havDist_mk]
  push_cast
  exact hav_90_180

theorem argmax_c1 : argmaxList [(-1 : ℝ), 6371 * π, 6371 * (π / 2)] = 1 := by
  have hmax : listMax [(6371 : ℝ) * π, 6371 * (π / 2)] = 6371 * π := by
    show max (6371 * π) (6371 * (π / 2)) = 6371 * π
    exact max_eq_left (by nlinarith [Real.pi_pos])
  rw [argmaxList_pair, hmax,
    if_neg (by nlinarith [Real.pi_pos] : ¬ (6371 * π ≤ (-1 : ℝ)))]
  have hmax2 : listMax [(6371 : ℝ) * (π / 2)] = 6371 * (π / 2) := rfl
  rw [argmaxList_pair, hmax2, if_pos (by nlinarith [Real.pi_pos])]

theorem greedyIter_c1 : greedyIndicesIter havDist
    [(⟨0, 0, 0, 10⟩ : City), ⟨1, 0, 180, 100⟩, ⟨2, 0, 90, 50⟩] 1 = [0, 1] := by
  show [0] ++ [argmaxList (minDistances havDist
    [(⟨0, 0, 0, 10⟩ : City), ⟨1, 0, 180, 100⟩, ⟨2, 0, 90, 50⟩] [0])] = [0, 1]
  rw [show minDistances havDist
      [(⟨0, 0, 0, 10⟩ : City), ⟨1, 0, 180, 100⟩, ⟨2, 0, 90, 50⟩] [0] =
    [-1, havDist ⟨1, 0, 180, 100⟩ ⟨0, 0, 0, 10⟩,
      havDist ⟨2, 0, 90, 50⟩ ⟨0, 0, 0, 10⟩] from rfl]
  rw [hav_c1800 1 0 100 10, hav_c900 2 0 50 10, argmax_c1]
  rfl

/-- Claim C1 (code bug): the catalog rows are id0 (0°,0°, pop 10),
id1 (0°,180°, pop 100), id2 (0°,90°, pop 50) and n = 2.  Because `coords_rad`
is built before the population sort, the greedy argmax runs over the pre-sort
coordinate rows while records are taken from the sorted frame: the run returns
[id1, id2], i.e. after seeding id1 it appends id2 — whose isolation score
6371·(π/2) is strictly SMALLER than the isolation score 6371·π of the
still-unselected candidate id0.  The greedy step property fails on this run. -/
theorem C1_greedy_step_violation :
    greedySelection havDist
      [⟨0, some 0, some 0, 10⟩, ⟨1, some 0, some 180, 100⟩,
        ⟨2, some 0, some 90, 50⟩] 2 =
      Except.ok [⟨1, 0, 180, 100⟩, ⟨2, 0, 90, 50⟩] ∧
    (⟨0, 0, 0, 10⟩ : City) ∈ validCities
      [⟨0, some 0, some 0, 10⟩, ⟨1, some 0, some 180, 100⟩,
        ⟨2, some 0, some 90, 50⟩] ∧
    (⟨0, 0, 0, 10⟩ : City) ∉ [(⟨1, 0, 180, 100⟩ : City), ⟨2, 0, 90, 50⟩] ∧
    havDist ⟨2, 0, 90, 50⟩ ⟨1, 0, 180, 100⟩ <
      havDist ⟨0, 0, 0, 10⟩ ⟨1, 0, 180, 100⟩ := by
  refine ⟨?_, by decide, by decide, ?_⟩
  · simp only [greedySelection]
    rw [show validCities [⟨0, some 0, some 0, 10⟩, ⟨1, some 0, some 180, 100⟩,
        ⟨2, some 0, some 90, 50⟩] =
      [(⟨0, 0, 0, 10⟩ : City), ⟨1, 0, 180, 100⟩, ⟨2, 0, 90, 50⟩] from rfl]
    rw [show ([(⟨0, 0, 0, 10⟩ : City), ⟨1, 0, 180, 100⟩, ⟨2, 0, 90, 50⟩] :
      List City).length = 3 from rfl]
    rw [show ((if (3 : ℕ) < 2 then 3 else 2) - 1 : ℕ) = 1 from rfl]
    rw [greedyIter_c1]
    rw [show sortPopDesc [(⟨0, 0, 0, 10⟩ : City), ⟨1, 0, 180, 100⟩, ⟨2, 0, 90, 50⟩] =
      [(⟨1, 0, 180, 100⟩ : City), ⟨2, 0, 90, 50⟩, ⟨0, 0, 0, 10⟩] from by decide]
    rw [if_pos (by decide : ∀ i ∈ ([0, 1] : List ℕ),
      i < ([(⟨1, 0, 180, 100⟩ : City), ⟨2, 0, 90, 50⟩, ⟨0, 0, 0, 10⟩] :
        List City).length)]
    rfl
  · rw [hav_c90180 2 1 50 100, hav_c0180 0 1 10 100]
    nlinarith [Real.pi_pos]

end CitySel

namespace CitySel

variable {α : Type} [LinearOrderedField α]

theorem nodup_set_of_fresh {β : Type} {l : List β} (h : l.Nodup) {r : ℕ}
    (hr : r < l.length) {x : β}
    (hfresh : ∀ p (hp : p < l.length), p ≠ r → l[p] ≠ x) :
    (l.set r x).Nodup := by
  rw [List.nodup_iff_injective_get]
  intro u v huv
  rw [List.get_eq_getElem, List.get_eq_getElem] at huv
  have hlen : (l.set r x).length = l.length := List.length_set l r x
  have hu : (u : ℕ) < l.length := by rw [← hlen]; exact u.isLt
  have hv : (v : ℕ) < l.length := by rw [← hlen]; exact v.isLt
  rw [List.getElem_set _, List.getElem_set _] at huv
  by_cases hur : r = (u : ℕ) <;> by_cases hvr : r = (v : ℕ)
  · exact Fin.ext (hur.symm.trans hvr)
  · exfalso
    rw [if_pos hur, if_neg hvr] at huv
    exact hfresh (v : ℕ) hv (fun he => hvr he.symm) huv.symm
  · exfalso
    rw [if_neg hur, if_pos hvr] at huv
    exact hfresh (u : ℕ) hu (fun he => hur he.symm) huv
  · rw [if_neg hur, if_neg hvr] at huv
    have h2 : l.get ⟨(u : ℕ), hu⟩ = l.get ⟨(v : ℕ), hv⟩ := by
      rw [List.get_eq_getElem, List.get_eq_getElem]
      exact huv
    have h3 := List.nodup_iff_injective_get.mp h h2
    have h4 : ((⟨(u : ℕ), hu⟩ : Fin l.length) : ℕ) =
        ((⟨(v : ℕ), hv⟩ : Fin l.length) : ℕ) := congrArg Fin.val h3
    exact Fin.ext h4

theorem eq_of_mem_ids {l : List City} (h : (l.map City.id).Nodup)
    {x y : City} (hx : x ∈ l) (hy : y ∈ l) (he : x.id = y.id) : x = y := by
  induction l with
  | nil => cases hx
  | cons c cs ih =>
    rw [List.map_cons, List.nodup_cons] at h
    rcases List.mem_cons.mp hx with rfl | hx2
    · rcases List.mem_cons.mp hy with rfl | hy2
      · rfl
      · exact absurd (by rw [he]; exact List.mem_map_of_mem City.id hy2) h.1
    · rcases List.mem_cons.mp hy with rfl | hy2
      · exact absurd (by rw [← he]; exact List.mem_map_of_mem City.id hx2) h.1
      · exact ih h.2 hx2 hy2

theorem nodup_ids_getD_inj {l : List City} (h : (l.map City.id).Nodup)
    {i j : ℕ} (hi : i < l.length) (hj : j < l.length)
    (he : (l.getD i default).id = (l.getD j default).id) : i = j := by
  rw [List.getD_eq_getElem _ _ hi, List.getD_eq_getElem _ _ hj] at he
  have hmi : i < (l.map City.id).length := by simpa using hi
  have hmj : j < (l.map City.id).length := by simpa using hj
  have h1 : (l.map City.id).get ⟨i, hmi⟩ = (l.map City.id).get ⟨j, hmj⟩ := by
    rw [List.get_eq_getElem, List.get_eq_getElem]
    rw [List.getElem_map, List.getElem_map]
    exact he
  have h2 := List.nodup_iff_injective_get.mp h h1
  exact congrArg Fin.val h2

theorem map_set_city (l : List City) (r : ℕ) (b : City) :
    (l.set r b).map City.id = (l.map City.id).set r b.id := by
  induction l generalizing r with
  | nil => simp
  | cons c cs ih =>
    cases r with
    | zero => simp
    | succ r => simp [ih]

theorem repair_preserves_ids {d : City → City → α}
    (hd0 : ∀ c, d c c = 0) (hnn : ∀ a b, 0 ≤ d a b)
    {pool : List City} (hpool : (pool.map City.id).Nodup)
    {th : α} {s s2 : RepairState}
    (hP : (s.improved.map City.id).Nodup ∧ ∀ c ∈ s.improved, c ∈ pool)
    (hstep : repairStep d pool th s = Except.ok (StepOut.cont s2)) :
    (s2.improved.map City.id).Nodup ∧ ∀ c ∈ s2.improved, c ∈ pool := by
  obtain ⟨i, j, m, b, mm, hcp, hlt, hbr, hmm, hrm, hs2⟩ := repairStep_cont_inv hstep
  obtain ⟨hij, hjlen, hmd, _⟩ := closestPair_spec hcp
  obtain ⟨hbmem, hbmm, _⟩ := bestRepl_some hbr
  have hbpool : b ∈ pool := List.mem_of_mem_filter hbmem
  have hm0 : 0 ≤ m := by rw [hmd]; exact hnn _ _
  have hrtlen : removalTarget (s.improved.getD i default)
      (s.improved.getD j default) i j < s.improved.length := by
    unfold removalTarget
    by_cases hp : (s.improved.getD i default).pop < (s.improved.getD j default).pop
    · rw [if_pos hp]; omega
    · rw [if_neg hp]; exact hjlen
  have hfresh : ∀ p (hp : p < s.improved.length),
      p ≠ removalTarget (s.improved.getD i default) (s.improved.getD j default) i j →
      (s.improved[p]).id ≠ b.id := by
    intro p hp hpr habs
    have hxmem : s.improved.getD p default ∈ s.improved := getD_mem hp default
    have hxpool := hP.2 _ hxmem
    have hxb : s.improved.getD p default = b := by
      apply eq_of_mem_ids hpool hxpool hbpool
      rw [List.getD_eq_getElem _ _ hp]
      exact habs
    have hle := candMinDist_le d hp hpr b
    rw [hxb, hd0] at hle
    rw [← hbmm] at hle
    linarith
  constructor
  · rw [hs2]
    show ((s.improved.set (removalTarget (s.improved.getD i default)
      (s.improved.getD j default) i j) b).map City.id).Nodup
    rw [map_set_city]
    apply nodup_set_of_fresh hP.1 (by simpa using hrtlen)
    intro p hp hpr
    rw [List.getElem_map]
    exact hfresh p (by simpa using hp) hpr
  · intro c hc
    rw [hs2] at hc
    rcases List.mem_or_eq_of_mem_set hc with h1 | rfl
    · exact hP.2 c h1
    · exact hbpool

/-- Claim C5: for every returned selection of the pipeline (over a catalog with
distinct record ids, and any metric that is zero on the diagonal and
nonnegative — both hold for the haversine metric), no record id appears twice
and every member is drawn from the valid-coordinate candidate pool; moreover
every committed repair replacement is an element-wise in-place swap, so the
selection's size never changes during repair. -/
theorem C5_selection_invariants (d : City → City → α)
    (hd0 : ∀ c, d c c = 0) (hnn : ∀ a b, 0 ≤ d a b)
    (fuel : ℕ) (rows : List RawCity) (n : ℕ) (th : α) (l : List City)
    (hids : ((validCities rows).map City.id).Nodup)
    (h : select_dispersed_cities d fuel rows n th = Except.ok l) :
    ((l.map City.id).Nodup ∧ ∀ c ∈ l, c ∈ validCities rows) ∧
    (∀ (pool2 : List City) (th2 : α) (s s2 : RepairState),
      repairStep d pool2 th2 s = Except.ok (StepOut.cont s2) →
      s2.improved.length = s.improved.length) := by
  constructor
  · unfold select_dispersed_cities at h
    rcases hg : greedySelection d rows n with e | sel
    · rw [hg] at h
      exact absurd h (by simp)
    · rw [hg] at h
      unfold post_process_city_selection at h
      obtain ⟨idxs, hidxs, hbound, hsel⟩ := greedySelection_ok_inv hg
      have hperm := sortPopDesc_perm (validCities rows)
      have hpoolids : ((sortPopDesc (validCities rows)).map City.id).Nodup :=
        ((hperm.map City.id).nodup_iff).mpr hids
      have h0lt := hbound 0 (by rw [hidxs]; exact greedyIter_zero_mem d _ _)
      have hvpos : 0 < (validCities rows).length := by
        rw [sortPopDesc_length] at h0lt
        exact h0lt
      have hidxs_nodup : idxs.Nodup := by
        rw [hidxs]
        apply greedyIter_nodup hnn
        by_cases hc : (validCities rows).length < n
        · rw [if_pos hc]; omega
        · rw [if_neg hc]; omega
      have hboundS : ∀ i ∈ idxs, i < (sortPopDesc (validCities rows)).length :=
        hbound
      have hinit : ((sel.map City.id).Nodup ∧
          ∀ c ∈ sel, c ∈ sortPopDesc (validCities rows)) := by
        constructor
        · rw [hsel, List.map_map]
          refine List.Nodup.map_on ?_ hidxs_nodup
          intro x hx y hy he
          exact nodup_ids_getD_inj hpoolids (hboundS x hx) (hboundS y hy) he
        · intro c hc
          rw [hsel] at hc
          obtain ⟨i, hi, rfl⟩ := List.mem_map.mp hc
          exact getD_mem (hboundS i hi) default
      obtain ⟨s2, hP2, hl⟩ := repairLoop_inv d (sortPopDesc (validCities rows)) th
        (fun s => (s.improved.map City.id).Nodup ∧
          ∀ c ∈ s.improved, c ∈ sortPopDesc (validCities rows))
        (fun s s2 hP hstep => repair_preserves_ids hd0 hnn hpoolids hP hstep)
        fuel ⟨sel, List.range sel.length⟩ l hinit h
      rw [hl]
      exact ⟨hP2.1, fun c hc => (hperm.mem_iff).mp (hP2.2 c hc)⟩
  · intro pool2 th2 s s2 hstep
    obtain ⟨i, j, m, b, mm, _, _, _, _, _, hs2⟩ := repairStep_cont_inv hstep
    rw [hs2]
    simp [List.length_set]

/-- Witness for C5 on a concrete two-record catalog and a full toy-metric run. -/
theorem C5_selection_invariants_witness :
    (([(⟨6, 0, 100, 9⟩ : City), ⟨0, 0, 0, 5⟩].map City.id).Nodup ∧
      ∀ c ∈ [(⟨6, 0, 100, 9⟩ : City), ⟨0, 0, 0, 5⟩],
        c ∈ validCities [⟨0, some 0, some 0, 5⟩, ⟨6, some 0, some 100, 9⟩]) ∧
    (∀ (pool2 : List City) (th2 : ℚ) (s s2 : RepairState),
      repairStep stepMetric pool2 th2 s = Except.ok (StepOut.cont s2) →
      s2.improved.length = s.improved.length) :=
  C5_selection_invariants stepMetric stepMetric_self stepMetric_nonneg 4
    [⟨0, some 0, some 0, 5⟩, ⟨6, some 0, some 100, 9⟩] 2 1
    [⟨6, 0, 100, 9⟩, ⟨0, 0, 0, 5⟩] (by decide) (by decide)

end CitySel
